import Mathlib

/-!
Verification development for the LogiGlobe route-planning core
(`src/backend/server.js`).  The JavaScript core is shallowly embedded:

* JavaScript numbers are modelled as rationals (`ℚ`); `Infinity` is `⊤` in
  `WithTop ℚ`; an absent / `undefined` object key is `Option.none`.
* The haversine helper `distanceKm` computes with IEEE-double trigonometry;
  it is modelled by an abstract parameter `geoDist : GeoPoint → GeoPoint → ℚ`
  threaded through every function that calls it.  Theorems that need facts
  about distances (for example nonnegativity) take them as hypotheses, so
  each theorem holds in particular for the real haversine function.
* JavaScript truthiness on strings ("" is falsy) is modelled explicitly;
  optional / possibly non-numeric record fields are `Option` fields.
-/

namespace LogiGlobe

/-- Geographic point, the `{lng, lat}` records passed to `distanceKm`. -/
structure GeoPoint where
  lng : ℚ
  lat : ℚ
deriving DecidableEq

/-- Network node (`§3 Node` / the objects in `buildDefaultNetwork`). -/
structure Node where
  id : String
  name : String
  lng : ℚ
  lat : ℚ
  region : Option String := none
  type : Option String := none
  ephemeral : Bool := false
deriving DecidableEq

/-- Directed edge of the supplied network. -/
structure Edge where
  «from» : String
  «to» : String
  mode : Option String := none
  distanceKm : Option ℚ := none
  timeHours : Option ℚ := none
  cost : Option ℚ := none
deriving DecidableEq

/-- Per-mode transport configuration entry. -/
structure TransportEntry where
  speedKmH : ℚ
  costPerKm : ℚ
  co2PerKm : ℚ
deriving DecidableEq

/-- Tariff section of the configuration. -/
structure Tariff where
  crossBorderCost : ℚ
  crossBorderDelayHours : ℚ
deriving DecidableEq

/-- Weights section of the configuration; fields are optional because the
external store may omit them or store non-numbers (`computeWeight` applies
per-field fallbacks). -/
structure Weights where
  balancedCostWeight : Option ℚ := none
  balancedTimeWeight : Option ℚ := none
  balancedCo2Weight : Option ℚ := none
deriving DecidableEq

/-- Live configuration as read by the planning core.  `transport` is total
here: `computeLegStats` only ever looks up the four outputs of
`normalizeMode`.  (The partial, possibly-crashing lookup of an arbitrary
external configuration is modelled separately by `DynConfig` below.) -/
structure Config where
  transport : String → TransportEntry
  tariff : Tariff
  weights : Weights

/-- Disruption event (`§3 Disruption Event`).  `center` abstracts both the
`[lng,lat]` array form and the `{lng,lat}` object form; `none` means the
center is not resolvable.  Numeric fields are `none` when absent or not a
number (the code checks `typeof === "number"`). -/
structure DisruptionEvent where
  id : Option String := none
  type : Option String := none
  center : Option GeoPoint := none
  radiusKm : Option ℚ := none
  delayHours : Option ℚ := none
  costFactor : Option ℚ := none
  affectedModes : Option (List String) := none
deriving DecidableEq

/-- Output of the leg cost model. -/
structure LegStats where
  mode : String
  distanceKm : ℚ
  timeHours : ℚ
  cost : ℚ
  co2 : ℚ
  affectedEvents : List String
  blocked : Bool
deriving DecidableEq

/-- The `defaultConfig` constant of `server.js`. -/
def defaultConfig : Config where
  transport := fun m =>
    if m = "rail" then ⟨80, 1, 2/100⟩
    else if m = "sea" then ⟨35, 5/10, 8/100⟩
    else if m = "air" then ⟨800, 8, 5/10⟩
    else ⟨60, 2, 5/100⟩
  tariff := ⟨500, 12⟩
  weights := ⟨some (5/10), some (3/10), some (2/10)⟩

/-- Embedding of `normalizeMode`; `none` and `""` are the falsy inputs. -/
def normalizeMode : Option String → String
  | none => "road"
  | some m =>
    if m = "" then "road"
    else if m = "1" ∨ m = "road" then "road"
    else if m = "2" ∨ m = "sea" then "sea"
    else if m = "3" ∨ m = "air" then "air"
    else if m = "4" ∨ m = "rail" then "rail"
    else "road"

/-- Character-wise lower-casing; semantically `String.toLower`, stated via
the character list so that concrete instances reduce in the kernel. -/
def strLower (s : String) : String := String.mk (s.data.map Char.toLower)

/-- Embedding of `normalizeNodeType` (`String(t).toLowerCase()` and the
recognised spellings). -/
def normalizeNodeType : Option String → String
  | none => ""
  | some t =>
    let v := strLower t
    if v = "port" then "port"
    else if v = "airport" ∨ v = "air" then "airport"
    else if v = "rail" ∨ v = "rail_hub" then "rail"
    else if v = "warehouse" then "warehouse"
    else v

/-- JavaScript truthiness of an optional string (absent and `""` are falsy). -/
def strTruthy : Option String → Bool
  | none => false
  | some s => !(s = "")

/-- Embedding of `ev.id || ev.type || "event"`. -/
def evId (ev : DisruptionEvent) : String :=
  match ev.id with
  | some s => if s = "" then (match ev.type with
      | some t => if t = "" then "event" else t
      | none => "event") else s
  | none => match ev.type with
    | some t => if t = "" then "event" else t
    | none => "event"

/-- Mutable accumulator of the event loop inside `computeLegStats`. -/
structure EventAcc where
  timeHours : ℚ
  cost : ℚ
  affectedEvents : List String
  blocked : Bool
deriving DecidableEq

/-- One iteration of the `events.forEach` loop of `computeLegStats`. -/
def applyEvent (geoDist : GeoPoint → GeoPoint → ℚ) (mode : String) (midPoint : GeoPoint)
    (acc : EventAcc) (ev : DisruptionEvent) : EventAcc :=
  match ev.center with
  | none => acc
  | some center =>
    let radiusKm : ℚ := match ev.radiusKm with | some r => r | none => 0
    if radiusKm ≤ 0 then acc
    else
      let allowedOk : Bool := match ev.affectedModes with
        | some ms => ms.contains mode
        | none => true
      if allowedOk = false then acc
      else
        let d := geoDist center midPoint
        if d ≤ radiusKm then
          let blocked := if ev.type = some "block" then true else acc.blocked
          let delayHours : ℚ := match ev.delayHours with | some x => x | none => 0
          let costFactor : ℚ := match ev.costFactor with
            | some x => if 0 < x then x else 1
            | none => 1
          let t := if 0 < delayHours then acc.timeHours + delayHours else acc.timeHours
          let c := acc.cost * costFactor
          let i := evId ev
          let ae := if acc.affectedEvents.contains i then acc.affectedEvents
            else acc.affectedEvents ++ [i]
          ⟨t, c, ae, blocked⟩
        else acc

/-- Embedding of `computeLegStats`. -/
def computeLegStats (geoDist : GeoPoint → GeoPoint → ℚ) (edge : Edge)
    (fromNode toNode : Node) (cfg : Config) (events : List DisruptionEvent) : LegStats :=
  let mode := normalizeMode edge.mode
  let distance : ℚ := match edge.distanceKm with
    | some d => d
    | none => geoDist ⟨fromNode.lng, fromNode.lat⟩ ⟨toNode.lng, toNode.lat⟩
  let tCfg := cfg.transport mode
  let speed := max tCfg.speedKmH 1
  let timeBase := distance / speed
  let costBase := distance * tCfg.costPerKm
  let co2 := distance * tCfg.co2PerKm
  let timeOv : ℚ := match edge.timeHours with
    | some t => if 0 < t then t else timeBase
    | none => timeBase
  let costOv : ℚ := match edge.cost with
    | some c => if 0 < c then c else costBase
    | none => costBase
  let crossBorder := strTruthy fromNode.region && strTruthy toNode.region &&
    !(fromNode.region = toNode.region)
  let timeCb := if crossBorder then timeOv + cfg.tariff.crossBorderDelayHours else timeOv
  let costCb := if crossBorder then costOv + cfg.tariff.crossBorderCost else costOv
  let midPoint : GeoPoint := ⟨(fromNode.lng + toNode.lng) / 2, (fromNode.lat + toNode.lat) / 2⟩
  let acc := events.foldl (applyEvent geoDist mode midPoint) ⟨timeCb, costCb, [], false⟩
  ⟨mode, distance, acc.timeHours, acc.cost, co2, acc.affectedEvents, acc.blocked⟩

/-- Embedding of `computeWeight`; `w` is the `weights` object of the live
configuration that the source reads from the ambient `currentConfig` at call
time. -/
def computeWeight (stats : LegStats) (objective : String) (w : Weights) : ℚ :=
  let obj := if objective = "" then "fast" else objective
  if obj = "cheap" then stats.cost
  else if obj = "green" then stats.co2
  else if obj = "fast" then stats.timeHours
  else if obj = "balanced" then
    let a : ℚ := match w.balancedCostWeight with | some x => x | none => 5/10
    let b : ℚ := match w.balancedTimeWeight with | some x => x | none => 3/10
    let c : ℚ := match w.balancedCo2Weight with | some x => x | none => 2/10
    stats.cost * a + stats.timeHours * b + stats.co2 * c
  else stats.timeHours

/-- Adjacency-list entry pushed by `buildGraph`. -/
structure AdjEntry where
  «to» : String
  mode : String
  distanceKm : ℚ
  timeHours : ℚ
  cost : ℚ
  co2 : ℚ
  affectedEvents : List String
  weight : ℚ
deriving DecidableEq

/-- Built search graph: the key list of `nodeMap` in insertion order (first
occurrence wins for the position, last assignment wins for the value, as for
a JavaScript object), the node lookup and the adjacency lookup. -/
structure Graph where
  nodeIds : List String
  nodeMap : String → Option Node
  adj : String → List AdjEntry

/-- Key list of a JavaScript object populated by `nodes.forEach(n => m[n.id] = n)`. -/
def dedupKeys (nodes : List Node) : List String :=
  nodes.foldl (fun acc n => if acc.contains n.id then acc else acc ++ [n.id]) []

/-- Lookup function of that object (last assignment wins). -/
def mkNodeMap (nodes : List Node) : String → Option Node :=
  nodes.foldl (fun m n => fun i => if i = n.id then some n else m i) (fun _ => none)

/-- The adjacency entry built from one edge and its computed stats. -/
def mkAdjEntry (stats : LegStats) (e : Edge) (w : ℚ) : AdjEntry :=
  ⟨e.«to», stats.mode, stats.distanceKm, stats.timeHours, stats.cost, stats.co2,
    stats.affectedEvents, w⟩

/-- One iteration of the `edges.forEach` loop of `buildGraph`. -/
def buildGraphStep (geoDist : GeoPoint → GeoPoint → ℚ) (nodeMap : String → Option Node)
    (cfg : Config) (objective : String) (events : List DisruptionEvent)
    (adj : String → List AdjEntry) (e : Edge) : String → List AdjEntry :=
  match nodeMap e.«from», nodeMap e.«to» with
  | some fromNode, some toNode =>
    let stats := computeLegStats geoDist e fromNode toNode cfg events
    if stats.blocked then adj
    else
      let w := computeWeight stats objective cfg.weights
      fun i => if i = e.«from» then adj i ++ [mkAdjEntry stats e w] else adj i
  | _, _ => adj

/-- Embedding of `buildGraph`. -/
def buildGraph (geoDist : GeoPoint → GeoPoint → ℚ) (nodes : List Node) (edges : List Edge)
    (cfg : Config) (objective : String) (events : List DisruptionEvent) : Graph :=
  let nodeMap := mkNodeMap nodes
  ⟨dedupKeys nodes, nodeMap,
    edges.foldl (buildGraphStep geoDist nodeMap cfg objective events) (fun _ => [])⟩

/-- One step of a recovered path: the `{from, edge}` records of `dijkstra`. -/
structure Step where
  «from» : String
  edge : AdjEntry
deriving DecidableEq

/-- State of the `dijkstra` main loop.  `dist` maps a key to `none` when the
JavaScript object has no such key (reads give `undefined`, and every
comparison against `undefined` is false), and to `some ⊤` for `Infinity`. -/
structure DijkstraState where
  dist : String → Option (WithTop ℚ)
  prev : String → Option Step
  visited : String → Bool

/-- Key set of the `dist` object: the graph keys, plus `originId` appended
when absent (the `dist[originId] = 0` write creates the key).  Relaxation
never creates further keys because `alt < undefined` is false. -/
def dijkstraKeys (g : Graph) (originId : String) : List String :=
  if g.nodeIds.contains originId then g.nodeIds else g.nodeIds ++ [originId]

/-- Initial `dist` object: every graph key at `Infinity`, then `originId` set to 0. -/
def initDist (g : Graph) (originId : String) : String → Option (WithTop ℚ) :=
  fun i => if i = originId then some 0 else if g.nodeIds.contains i then some ⊤ else none

/-- One iteration of the minimum-selection scan (`Object.keys(dist).forEach`). -/
def selectMinFold (s : DijkstraState) (acc : Option String × WithTop ℚ) (i : String) :
    Option String × WithTop ℚ :=
  match s.dist i with
  | some dv => if s.visited i = false ∧ dv < acc.2 then (some i, dv) else acc
  | none => acc

/-- Linear scan for the unvisited key with minimum tentative distance
(`u`/`best` in the source; ties keep the earliest key). -/
def selectMin (keys : List String) (s : DijkstraState) : Option String :=
  (keys.foldl (selectMinFold s) (none, ⊤)).1

/-- Relaxation of one outgoing edge of the popped node `u`. -/
def relaxStep (u : String) (s : DijkstraState) (e : AdjEntry) : DijkstraState :=
  match s.dist u with
  | none => s
  | some du =>
    let alt := du + (e.weight : WithTop ℚ)
    match s.dist e.«to» with
    | none => s
    | some dv =>
      if alt < dv then
        { s with
          dist := fun i => if i = e.«to» then some alt else s.dist i,
          prev := fun i => if i = e.«to» then some ⟨u, e⟩ else s.prev i }
      else s

/-- The `while (true)` loop of `dijkstra`, fuelled.  Each pass either breaks
(no candidate, or the destination is popped) or marks one further key
visited, so `keys.length + 1` units of fuel always reach a break. -/
def dijkstraLoop (g : Graph) (keys : List String) (destinationId : String) :
    Nat → DijkstraState → DijkstraState
  | 0, s => s
  | fuel + 1, s =>
    match selectMin keys s with
    | none => s
    | some u =>
      if u = destinationId then s
      else
        let s1 : DijkstraState :=
          { s with visited := fun i => if i = u then true else s.visited i }
        let s2 := (g.adj u).foldl (relaxStep u) s1
        dijkstraLoop g keys destinationId fuel s2

/-- The reconstruction loop `while (prev[cur]) { path.unshift(...); ... }`,
fuelled; under the loop invariants the walk provably stops within the fuel. -/
def buildPathAux (prev : String → Option Step) : Nat → String → List Step → List Step
  | 0, _, acc => acc
  | fuel + 1, cur, acc =>
    match prev cur with
    | none => acc
    | some st => buildPathAux prev fuel st.«from» (st :: acc)

/-- Embedding of `dijkstra`. -/
def dijkstra (g : Graph) (originId destinationId : String) : Option (List Step) :=
  let keys := dijkstraKeys g originId
  let s0 : DijkstraState := ⟨initDist g originId, fun _ => none, fun _ => false⟩
  let s := dijkstraLoop g keys destinationId (keys.length + 1) s0
  match s.prev destinationId with
  | none => none
  | some _ => some (buildPathAux s.prev (keys.length + 1) destinationId [])

/-- A list of steps is an origin-to-destination path of the adjacency
structure: each step starts where the previous one ended, uses an edge that
is actually in the adjacency list of its start node, and the walk links the
origin to the destination. -/
def IsPath (adj : String → List AdjEntry) : String → String → List Step → Prop
  | o, d, [] => o = d
  | o, d, st :: rest => st.«from» = o ∧ st.edge ∈ adj o ∧ IsPath adj st.edge.«to» d rest

/-- Summed search weight of a path. -/
def pathWeight (p : List Step) : ℚ := (p.map (fun st => st.edge.weight)).sum

/-- The `buildDefaultNetwork` sample (Shanghai / Chongqing / Xi'an / Zhengzhou
/ Duisburg / Hamburg / Rotterdam). -/
def buildDefaultNetwork : List Node × List Edge :=
  ([⟨"CN_SHANGHAI", "上海", 121.5, 31.2, some "CN", some "port", false⟩,
    ⟨"CN_CHONGQING", "重庆", 106.5, 29.5, some "CN", some "rail", false⟩,
    ⟨"CN_XIAN", "西安", 108.95, 34.27, some "CN", some "rail", false⟩,
    ⟨"CN_ZHENGZHOU", "郑州", 113.65, 34.76, some "CN", some "rail", false⟩,
    ⟨"EU_DUISBURG", "杜伊斯堡", 6.76, 51.43, some "EU", some "rail", false⟩,
    ⟨"EU_HAMBURG", "汉堡", 9.99, 53.55, some "EU", some "port", false⟩,
    ⟨"EU_ROTTERDAM", "鹿特丹", 4.48, 51.92, some "EU", some "port", false⟩],
   [⟨"CN_CHONGQING", "CN_XIAN", some "rail", none, none, none⟩,
    ⟨"CN_XIAN", "CN_ZHENGZHOU", some "rail", none, none, none⟩,
    ⟨"CN_ZHENGZHOU", "EU_DUISBURG", some "rail", none, none, none⟩,
    ⟨"CN_SHANGHAI", "EU_HAMBURG", some "sea", none, none, none⟩,
    ⟨"CN_SHANGHAI", "EU_ROTTERDAM", some "sea", none, none, none⟩,
    ⟨"EU_HAMBURG", "EU_DUISBURG", some "road", none, none, none⟩,
    ⟨"EU_ROTTERDAM", "EU_DUISBURG", some "road", none, none, none⟩,
    ⟨"CN_SHANGHAI", "CN_CHONGQING", some "road", none, none, none⟩])

/-- One task as supplied inside `request.tasks`. -/
structure TaskInput where
  taskId : Option String := none
  originId : Option String := none
  destinationId : Option String := none
  objective : Option String := none
deriving DecidableEq

/-- Batch request body of the planning operation.  `nodes`/`edges` are `none`
when the request carries no array (so the default network is used); `events`
collapses the `Array.isArray` guard. -/
structure PlanRequest where
  tasks : Option (List TaskInput) := none
  taskId : Option String := none
  originId : Option String := none
  destinationId : Option String := none
  objective : Option String := none
  nodes : Option (List Node) := none
  edges : Option (List Edge) := none
  events : List DisruptionEvent := []
deriving DecidableEq

/-- A normalized task produced by `normalizeBatchRequest`. -/
structure PlanTask where
  taskId : String
  originId : Option String
  destinationId : Option String
  objectiveRaw : Option String
deriving DecidableEq

/-- Embedding of `normalizeBatchRequest`: explicit task list with positional
default ids, else the single implicit task of the request. -/
def normalizeBatchRequest (req : PlanRequest) : List PlanTask :=
  let single : PlanTask :=
    ⟨(match req.taskId with
       | some s => if s = "" then "task-1" else s
       | none => "task-1"),
      req.originId, req.destinationId, req.objective⟩
  match req.tasks with
  | some list =>
    if list.length > 0 then
      list.enum.map (fun p =>
        ⟨(match p.2.taskId with
           | some s => if s = "" then "task-" ++ toString (p.1 + 1) else s
           | none => "task-" ++ toString (p.1 + 1)),
          p.2.originId, p.2.destinationId, p.2.objective⟩)
    else [single]
  | none => [single]

/-- Embedding of `normalizeObjectiveToGraph`. -/
def normalizeObjectiveToGraph : Option String → String
  | none => "fast"
  | some o =>
    if o = "" then "fast"
    else
      let v := strLower o
      if v = "min_time" then "fast"
      else if v = "min_cost" then "cheap"
      else if v = "min_co2" then "green"
      else if v = "fast" ∨ v = "cheap" ∨ v = "green" ∨ v = "balanced" then v
      else "fast"

/-- Embedding of `normalizeObjectiveToOutput`. -/
def normalizeObjectiveToOutput : Option String → String
  | none => "min_time"
  | some o =>
    if o = "" then "min_time"
    else
      let v := strLower o
      if v = "min_time" ∨ v = "min_cost" ∨ v = "min_co2" then v
      else if v = "fast" then "min_time"
      else if v = "cheap" then "min_cost"
      else if v = "green" then "min_co2"
      else "min_time"

/-- Embedding of `decideModeAttempts`. -/
def decideModeAttempts (objectiveOut : String) : List (List String) :=
  if objectiveOut = "min_time" then [["road", "air"]]
  else if objectiveOut = "min_cost" then
    [["road", "sea"], ["road", "sea", "rail"], ["road", "sea", "rail", "air"]]
  else if objectiveOut = "min_co2" then [["road", "rail", "sea"]]
  else [["road", "rail", "sea", "air"]]

/-- Embedding of `normalizeNetwork`: drop nodes with empty or duplicate ids
(non-finite coordinates cannot arise for `ℚ` coordinates), then keep edges
between known nodes, deduplicated by the `from|to|mode` string key. -/
def normalizeNetwork (nodes : List Node) (edges : List Edge) : List Node × List Edge :=
  let normalizedNodes :=
    (nodes.foldl (fun (acc : List Node × List String) n =>
      if n.id = "" then acc
      else if acc.2.contains n.id then acc
      else (acc.1 ++ [{ n with type := some (normalizeNodeType n.type) }], acc.2 ++ [n.id]))
      ([], [])).1
  let nodeMap := mkNodeMap normalizedNodes
  let normalizedEdges :=
    (edges.foldl (fun (acc : List Edge × List String) e =>
      match nodeMap e.«from», nodeMap e.«to» with
      | some _, some _ =>
        let mode := normalizeMode e.mode
        let key := e.«from» ++ "|" ++ e.«to» ++ "|" ++ mode
        if acc.2.contains key then acc
        else (acc.1 ++ [{ e with mode := some mode }], acc.2 ++ [key])
      | _, _ => acc) ([], [])).1
  (normalizedNodes, normalizedEdges)

/-- Embedding of `buildFacilityIndex`. -/
def buildFacilityIndex (nodes : List Node) : String → List Node := fun t =>
  if t = "airport" then nodes.filter (fun n => normalizeNodeType n.type = "airport")
  else if t = "port" then nodes.filter (fun n => normalizeNodeType n.type = "port")
  else if t = "rail" then nodes.filter (fun n => normalizeNodeType n.type = "rail")
  else []

/-- Embedding of `findNearestNodeId` (strictly closer candidates win, so the
earliest candidate at the minimum distance is kept). -/
def findNearestNodeId (geoDist : GeoPoint → GeoPoint → ℚ) (fromNode : Node)
    (candidates : List Node) : Option String :=
  (candidates.foldl (fun (acc : Option String × WithTop ℚ) c =>
    let d := geoDist ⟨fromNode.lng, fromNode.lat⟩ ⟨c.lng, c.lat⟩
    if (d : WithTop ℚ) < acc.2 then (some c.id, d) else acc) (none, ⊤)).1

/-- Replacement of characters outside `[a-zA-Z0-9_-]` by underscores. -/
def sanitizeIdPart (s : String) : String :=
  String.mk (s.toList.map (fun c => if c.isAlphanum ∨ c = '_' ∨ c = '-' then c else '_'))

/-- Embedding of `makeEphemeralFacilityId`: a pure function of
`(taskId, endpointId, facilityType, role)`. -/
def makeEphemeralFacilityId (taskId endpointId facilityType role : String) : String :=
  let safeTask := sanitizeIdPart (if taskId = "" then "task" else taskId)
  let safeEndpoint := sanitizeIdPart (if endpointId = "" then "node" else endpointId)
  let safeRole := sanitizeIdPart (if role = "" then "endpoint" else role)
  "EPH_" ++ safeTask ++ "_" ++ safeEndpoint ++ "_" ++ facilityType ++ "_" ++ safeRole

/-- Embedding of `upsertEdge`. -/
def upsertEdge (edges : List Edge) (f t m : String) : List Edge :=
  let m2 := normalizeMode (some m)
  if edges.any (fun e => e.«from» = f ∧ e.«to» = t ∧ normalizeMode e.mode = m2) then edges
  else edges ++ [{ «from» := f, «to» := t, mode := some m2 }]

/-- Working state of `ensureFacilitiesForModes`: the mutable `nodes`,
`nodeMap`, `edges` and collected `ephemeralNodes` of the source. -/
structure EnsureState where
  nodes : List Node
  nodeMap : String → Option Node
  edges : List Edge
  ephemeralNodes : List Node

/-- Embedding of `selectFacilityId`: the endpoint itself if already typed,
else the nearest existing facility, else a deterministic ephemeral node. -/
def selectFacilityId (geoDist : GeoPoint → GeoPoint → ℚ) (taskIdInner : String)
    (st : EnsureState) (index : String → List Node) (endpointNode : Node)
    (facilityType role : String) : EnsureState × Option String :=
  let endpointType := normalizeNodeType endpointNode.type
  if endpointType = facilityType then (st, some endpointNode.id)
  else
    let candidates := index facilityType
    if candidates.length > 0 then (st, findNearestNodeId geoDist endpointNode candidates)
    else
      let eid := makeEphemeralFacilityId taskIdInner endpointNode.id facilityType role
      match st.nodeMap eid with
      | some _ => (st, some eid)
      | none =>
        let created : Node :=
          ⟨eid, endpointNode.name, endpointNode.lng, endpointNode.lat,
            endpointNode.region, some facilityType, true⟩
        ({ st with
            nodes := st.nodes ++ [created],
            nodeMap := fun i => if i = eid then some created else st.nodeMap i },
          some eid)

/-- One pass of `ensureAccessForFacilityType` plus the collection of the
nodes appended during that pass. -/
def ensureOneFacilityType (geoDist : GeoPoint → GeoPoint → ℚ) (taskId : String)
    (index : String → List Node) (originNode destinationNode : Node)
    (st : EnsureState) (facilityType : String) : EnsureState :=
  let before := st.nodes.length
  let pa := selectFacilityId geoDist taskId st index originNode facilityType "origin"
  let pb := selectFacilityId geoDist taskId pa.1 index destinationNode facilityType "destination"
  let stB := pb.1
  let edges1 := match pa.2 with
    | some fid =>
      if fid ≠ "" ∧ fid ≠ originNode.id then
        upsertEdge (upsertEdge stB.edges originNode.id fid "road") fid originNode.id "road"
      else stB.edges
    | none => stB.edges
  let edges2 := match pb.2 with
    | some fid =>
      if fid ≠ "" ∧ fid ≠ destinationNode.id then
        upsertEdge (upsertEdge edges1 destinationNode.id fid "road") fid destinationNode.id "road"
      else edges1
    | none => edges1
  let appended := (stB.nodes.drop before).filter (fun n => n.ephemeral)
  { stB with edges := edges2, ephemeralNodes := stB.ephemeralNodes ++ appended }

/-- Deduplication preserving first occurrence (`Array.from(new Set(...))`). -/
def dedupStr (l : List String) : List String :=
  l.foldl (fun acc s => if acc.contains s then acc else acc ++ [s]) []

/-- Embedding of `ensureFacilitiesForModes`. -/
def ensureFacilitiesForModes (geoDist : GeoPoint → GeoPoint → ℚ) (taskId : String)
    (nodes : List Node) (edges : List Edge) (originNode destinationNode : Node)
    (allowedModes : List String) : EnsureState :=
  let requiredFacilityTypes := allowedModes.foldl (fun acc m =>
    let mode := normalizeMode (some m)
    acc ++ (if mode = "air" then ["airport"] else [])
        ++ (if mode = "sea" then ["port"] else [])
        ++ (if mode = "rail" then ["rail"] else [])) []
  let uniqueFacilityTypes := dedupStr requiredFacilityTypes
  let facilityIndex := buildFacilityIndex nodes
  let st0 : EnsureState := ⟨nodes, mkNodeMap nodes, edges, []⟩
  uniqueFacilityTypes.foldl
    (ensureOneFacilityType geoDist taskId facilityIndex originNode destinationNode) st0

/-- Embedding of `filterEdgesByConstraintsAndModes`. -/
def filterEdgesByConstraintsAndModes (nodes : List Node) (edges : List Edge)
    (allowedModes : List String) : List Edge :=
  let nodeMap := mkNodeMap nodes
  let allowed := allowedModes.map (fun m => normalizeMode (some m))
  edges.filter (fun e =>
    match nodeMap e.«from», nodeMap e.«to» with
    | some fn, some tn =>
      let mode := normalizeMode e.mode
      if allowed.contains mode = false then false
      else if mode = "road" then true
      else
        let fromType := normalizeNodeType fn.type
        let toType := normalizeNodeType tn.type
        if mode = "air" then fromType == "airport" && toType == "airport"
        else if mode = "sea" then fromType == "port" && toType == "port"
        else if mode = "rail" then fromType == "rail" && toType == "rail"
        else false
    | _, _ => false)

/-- One leg of a returned solution. -/
structure Leg where
  fromId : String
  toId : String
  mode : String
  distanceKm : ℚ
  timeHours : ℚ
  cost : ℚ
  co2 : ℚ
  affectedEvents : List String
deriving DecidableEq

/-- Render hint for one leg. -/
structure RenderHint where
  legIndex : Nat
  mode : String
  type : String
  provider : Option String
  level : Option String
  fromLngLat : ℚ × ℚ
  toLngLat : ℚ × ℚ
  curvature : Option ℚ
deriving DecidableEq

/-- Embedding of `buildRenderHints`. -/
def buildRenderHints (legs : List Leg) (nodeMap : String → Option Node) : List RenderHint :=
  legs.enum.foldl (fun hints p =>
    match nodeMap p.2.fromId, nodeMap p.2.toId with
    | some fromNode, some toNode =>
      let mode := normalizeMode (some p.2.mode)
      let fromLngLat := (fromNode.lng, fromNode.lat)
      let toLngLat := (toNode.lng, toNode.lat)
      if mode = "road" then
        hints ++ [⟨p.1, "road", "navigation", some "amap", some "intercity",
          fromLngLat, toLngLat, none⟩]
      else
        hints ++ [⟨p.1, mode, "arc", none, none, fromLngLat, toLngLat, some (35/100)⟩]
    | _, _ => hints) []

/-- Solution payload of a successfully planned task. -/
structure Solution where
  legs : List Leg
  ephemeralNodes : List Node
  renderHints : List RenderHint
deriving DecidableEq

/-- Per-task planning result. -/
structure TaskResult where
  taskId : String
  objective : String
  solution : Option Solution
deriving DecidableEq

/-- One leg of the returned path, built from a `{from, edge}` step. -/
def legOfStep (st : Step) : Leg :=
  Leg.mk st.«from» st.edge.«to» st.edge.mode st.edge.distanceKm st.edge.timeHours
    st.edge.cost st.edge.co2 st.edge.affectedEvents

/-- The body of the `for (const allowedModes of modeAttempts)` loop of
`planOneTask`: each attempt re-derives the working network from the base
inputs (the JSON deep clone is the identity on these immutable values),
normalizes, ensures facilities, filters, builds the graph and searches.
`some r` models an early `return` of the loop (an unknown origin or
destination returns the `null` solution for the whole task; a found path
returns the assembled solution); `none` models `continue`. -/
def planAttemptBody (geoDist : GeoPoint → GeoPoint → ℚ) (cfg : Config) (taskId : String)
    (originId destinationId : String) (baseNodes : Option (List Node))
    (baseEdges : Option (List Edge)) (events : List DisruptionEvent)
    (objectiveGraph : String) (allowedModes : List String) : Option (Option Solution) :=
  let initialNodes := match baseNodes with
    | some ns => ns
    | none => buildDefaultNetwork.1
  let initialEdges := match baseEdges with
    | some es => es
    | none => buildDefaultNetwork.2
  let normalized := normalizeNetwork initialNodes initialEdges
  let nodes := normalized.1
  let edges := normalized.2
  let nodeMap := mkNodeMap nodes
  match nodeMap originId, nodeMap destinationId with
  | some originNode, some destinationNode =>
    let ensured := ensureFacilitiesForModes geoDist taskId nodes edges
      originNode destinationNode allowedModes
    let constrainedEdges :=
      filterEdgesByConstraintsAndModes ensured.nodes ensured.edges allowedModes
    let graph := buildGraph geoDist ensured.nodes constrainedEdges cfg objectiveGraph events
    match dijkstra graph originId destinationId with
    | some path =>
      if path.length = 0 then none
      else
        let legs := path.map legOfStep
        let usedIds := legs.foldl (fun acc l => acc ++ [l.fromId, l.toId]) []
        let ephemeralNodes := ensured.ephemeralNodes.filter
          (fun n => n.id ≠ "" ∧ usedIds.contains n.id)
        let renderHints := buildRenderHints legs graph.nodeMap
        some (some ⟨legs, ephemeralNodes, renderHints⟩)
    | none => none
  | _, _ => some none

/-- The attempt loop of `planOneTask`: first early return wins, exhaustion
of the mode attempts yields no solution. -/
def planAttempts (geoDist : GeoPoint → GeoPoint → ℚ) (cfg : Config) (taskId : String)
    (originId destinationId : String) (baseNodes : Option (List Node))
    (baseEdges : Option (List Edge)) (events : List DisruptionEvent)
    (objectiveGraph : String) : List (List String) → Option Solution
  | [] => none
  | allowedModes :: rest =>
    match planAttemptBody geoDist cfg taskId originId destinationId baseNodes baseEdges
      events objectiveGraph allowedModes with
    | some r => r
    | none => planAttempts geoDist cfg taskId originId destinationId baseNodes baseEdges
        events objectiveGraph rest

/-- Embedding of `planOneTask`. -/
def planOneTask (geoDist : GeoPoint → GeoPoint → ℚ) (cfg : Config) (task : PlanTask)
    (baseNodes : Option (List Node)) (baseEdges : Option (List Edge))
    (events : List DisruptionEvent) : TaskResult :=
  let objectiveOut := normalizeObjectiveToOutput task.objectiveRaw
  let objectiveGraph := normalizeObjectiveToGraph task.objectiveRaw
  match task.originId, task.destinationId with
  | some originId, some destinationId =>
    if originId = "" ∨ destinationId = "" then ⟨task.taskId, objectiveOut, none⟩
    else
      ⟨task.taskId, objectiveOut,
        planAttempts geoDist cfg task.taskId originId destinationId baseNodes baseEdges
          events objectiveGraph (decideModeAttempts objectiveOut)⟩
  | _, _ => ⟨task.taskId, objectiveOut, none⟩

/-- Embedding of `planScenario`: one result per normalized task, in order.
The configuration is the value of the ambient `currentConfig` during the
call, passed explicitly here. -/
def planScenario (geoDist : GeoPoint → GeoPoint → ℚ) (cfg : Config)
    (request : PlanRequest) : List TaskResult :=
  (normalizeBatchRequest request).map
    (fun t => planOneTask geoDist cfg t request.nodes request.edges request.events)

/-! ## Spec-side definitions for the leg cost model claims -/

/-- A leg crosses a border when both endpoints carry non-empty `region`
values that differ (the guard of the tariff block in `computeLegStats`). -/
def crossBorderLeg (fromNode toNode : Node) : Bool :=
  strTruthy fromNode.region && strTruthy toNode.region &&
    !(fromNode.region = toNode.region)

/-- Base leg statistics following the words of spec §4.1, before the
cross-border tariff and before any disruption effect: normalized mode,
explicit-or-derived distance, base time/cost/CO2 from the per-mode config,
positive explicit `timeHours`/`cost` overriding the computed base values. -/
def legBaseStats (geoDist : GeoPoint → GeoPoint → ℚ) (edge : Edge)
    (fromNode toNode : Node) (cfg : Config) : LegStats :=
  let mode := normalizeMode edge.mode
  let distance : ℚ := match edge.distanceKm with
    | some d => d
    | none => geoDist ⟨fromNode.lng, fromNode.lat⟩ ⟨toNode.lng, toNode.lat⟩
  let tCfg := cfg.transport mode
  let timeBase := distance / max tCfg.speedKmH 1
  let costBase := distance * tCfg.costPerKm
  let timeOv : ℚ := match edge.timeHours with
    | some t => if 0 < t then t else timeBase
    | none => timeBase
  let costOv : ℚ := match edge.cost with
    | some c => if 0 < c then c else costBase
    | none => costBase
  ⟨mode, distance, timeOv, costOv, distance * tCfg.co2PerKm, [], false⟩

/-- An event applies to a leg (spec §4.1): resolvable center, positive
radius, mode allowed when the event restricts modes, and the leg midpoint
within the radius of the center. -/
def eventApplicable (geoDist : GeoPoint → GeoPoint → ℚ) (mode : String)
    (midPoint : GeoPoint) (ev : DisruptionEvent) : Bool :=
  match ev.center with
  | none => false
  | some center =>
    let radiusKm : ℚ := match ev.radiusKm with | some r => r | none => 0
    if radiusKm ≤ 0 then false
    else
      let allowedOk : Bool := match ev.affectedModes with
        | some ms => ms.contains mode
        | none => true
      if allowedOk = false then false
      else decide (geoDist center midPoint ≤ radiusKm)

/-- Time contribution of an applicable event: its positive `delayHours`, else 0. -/
def eventDelay (ev : DisruptionEvent) : ℚ :=
  match ev.delayHours with
  | some x => if 0 < x then x else 0
  | none => 0

/-- Cost factor of an applicable event: its positive `costFactor`, else 1. -/
def eventFactor (ev : DisruptionEvent) : ℚ :=
  match ev.costFactor with
  | some x => if 0 < x then x else 1
  | none => 1

/-- Abbreviation for the adjacency entry that `buildGraph` pushes for an edge. -/
def adjEntryOf (geoDist : GeoPoint → GeoPoint → ℚ) (cfg : Config) (objective : String)
    (events : List DisruptionEvent) (e : Edge) (fn tn : Node) : AdjEntry :=
  mkAdjEntry (computeLegStats geoDist e fn tn cfg events) e
    (computeWeight (computeLegStats geoDist e fn tn cfg events) objective cfg.weights)

/-! ## Steps returned by the solver always come from the adjacency lists -/

/-- Every recorded predecessor step uses an edge of the graph. -/
def PrevSub (gr : Graph) (s : DijkstraState) : Prop :=
  ∀ v st, s.prev v = some st → st.edge ∈ gr.adj st.«from»

/-! ## Characterization of successful planning attempts -/

/-- Working network of one attempt: the (cloned) base or default network,
normalized. -/
def attemptWorking (baseNodes : Option (List Node)) (baseEdges : Option (List Edge)) :
    List Node × List Edge :=
  normalizeNetwork
    (match baseNodes with | some ns => ns | none => buildDefaultNetwork.1)
    (match baseEdges with | some es => es | none => buildDefaultNetwork.2)

/-- Ensured facilities of one attempt. -/
def attemptEnsured (geoDist : GeoPoint → GeoPoint → ℚ) (taskId : String)
    (baseNodes : Option (List Node)) (baseEdges : Option (List Edge))
    (originNode destinationNode : Node) (allowedModes : List String) : EnsureState :=
  ensureFacilitiesForModes geoDist taskId (attemptWorking baseNodes baseEdges).1
    (attemptWorking baseNodes baseEdges).2 originNode destinationNode allowedModes

/-- Search graph of one attempt. -/
def attemptGraph (geoDist : GeoPoint → GeoPoint → ℚ) (cfg : Config) (taskId : String)
    (baseNodes : Option (List Node)) (baseEdges : Option (List Edge))
    (events : List DisruptionEvent) (objectiveGraph : String)
    (originNode destinationNode : Node) (allowedModes : List String) : Graph :=
  buildGraph geoDist
    (attemptEnsured geoDist taskId baseNodes baseEdges originNode destinationNode
      allowedModes).nodes
    (filterEdgesByConstraintsAndModes
      (attemptEnsured geoDist taskId baseNodes baseEdges originNode destinationNode
        allowedModes).nodes
      (attemptEnsured geoDist taskId baseNodes baseEdges originNode destinationNode
        allowedModes).edges
      allowedModes)
    cfg objectiveGraph events

/-! ## Concrete fixtures used by witness theorems -/

/-- Two-node road test network, node A. -/
def testNodeA : Node := { id := "A", name := "", lng := 0, lat := 0 }

/-- Two-node road test network, node B. -/
def testNodeB : Node := { id := "B", name := "", lng := 1, lat := 0 }

/-- The single road edge of the test network. -/
def testEdgeAB : Edge := { «from» := "A", «to» := "B", mode := some "road" }

/-- Constant unit distance function used to instantiate the abstract
haversine parameter on concrete inputs. -/
def testDist : GeoPoint → GeoPoint → ℚ := fun _ _ => 1

/-- A concrete planning task on the test network. -/
def testTask : PlanTask := ⟨"t", some "A", some "B", some "min_cost"⟩

/-- The solution the planner returns for `testTask` on the test network. -/
def testSolution : Solution :=
  ⟨[Leg.mk "A" "B" "road" 1 (1/60) 2 (1/20) []], [],
    [⟨0, "road", "navigation", some "amap", some "intercity", (0, 0), (1, 0), none⟩]⟩

/-- Property of a collected ephemeral node: its id is the deterministic
function of the task id, one of the two endpoint ids, a facility type and
the matching role. -/
def EphemeralIdOk (taskId : String) (originNode destinationNode : Node) (n : Node) : Prop :=
  ∃ endpointId role facilityType,
    ((endpointId = originNode.id ∧ role = "origin") ∨
      (endpointId = destinationNode.id ∧ role = "destination")) ∧
    n.id = makeEphemeralFacilityId taskId endpointId facilityType role ∧
    n.ephemeral = true

/-! ## Dynamic configuration model for the external configuration store -/

/-- Transport entry as the external store may supply it: any field may be
absent or non-numeric (`none`, which behaves like `NaN` in arithmetic). -/
structure DynTransportEntry where
  speedKmH : Option ℚ := none
  costPerKm : Option ℚ := none
  co2PerKm : Option ℚ := none
deriving DecidableEq

/-- Tariff section as the external store may supply it. -/
structure DynTariff where
  crossBorderCost : Option ℚ := none
  crossBorderDelayHours : Option ℚ := none
deriving DecidableEq

/-- Configuration as the external store may supply it: whole sections and
individual per-mode entries may be missing. -/
structure DynConfig where
  transport : Option (String → Option DynTransportEntry) := none
  tariff : Option DynTariff := none
  weights : Weights := {}

/-- `NaN`-propagating addition: JavaScript `undefined`/`NaN` operands poison
the result. -/
def jsAdd : Option ℚ → Option ℚ → Option ℚ
  | some a, some b => some (a + b)
  | _, _ => none

/-- `NaN`-propagating multiplication. -/
def jsMul : Option ℚ → Option ℚ → Option ℚ
  | some a, some b => some (a * b)
  | _, _ => none

/-- Event accumulator over possibly-`NaN` time and cost. -/
structure DynEventAcc where
  timeHours : Option ℚ
  cost : Option ℚ
  affectedEvents : List String
  blocked : Bool

/-- The event loop of `computeLegStats` over possibly-`NaN` accumulators. -/
def applyEventDyn (geoDist : GeoPoint → GeoPoint → ℚ) (mode : String) (midPoint : GeoPoint)
    (acc : DynEventAcc) (ev : DisruptionEvent) : DynEventAcc :=
  match ev.center with
  | none => acc
  | some center =>
    let radiusKm : ℚ := match ev.radiusKm with | some r => r | none => 0
    if radiusKm ≤ 0 then acc
    else
      let allowedOk : Bool := match ev.affectedModes with
        | some ms => ms.contains mode
        | none => true
      if allowedOk = false then acc
      else
        let d := geoDist center midPoint
        if d ≤ radiusKm then
          let blocked := if ev.type = some "block" then true else acc.blocked
          let delayHours : ℚ := match ev.delayHours with | some x => x | none => 0
          let costFactor : ℚ := match ev.costFactor with
            | some x => if 0 < x then x else 1
            | none => 1
          let t := if 0 < delayHours then jsAdd acc.timeHours (some delayHours)
            else acc.timeHours
          let c := jsMul acc.cost (some costFactor)
          let i := evId ev
          let ae := if acc.affectedEvents.contains i then acc.affectedEvents
            else acc.affectedEvents ++ [i]
          ⟨t, c, ae, blocked⟩
        else acc

/-- Leg statistics over possibly-`NaN` values. -/
structure DynLegStats where
  mode : String
  distanceKm : ℚ
  timeHours : Option ℚ
  cost : Option ℚ
  co2 : Option ℚ
  affectedEvents : List String
  blocked : Bool

/-- Embedding of `computeLegStats` against an arbitrary external
configuration.  The outer `none` models the thrown `TypeError` of
`cfg.transport[mode].speedKmH` when `transport` or its `mode` entry is
absent, and of `cfg.tariff.crossBorderCost` when a cross-border leg meets an
absent `tariff` section; inner `none` fields model `NaN` results from
non-numeric entry fields. -/
def computeLegStatsDyn (geoDist : GeoPoint → GeoPoint → ℚ) (edge : Edge)
    (fromNode toNode : Node) (cfg : DynConfig) (events : List DisruptionEvent) :
    Option DynLegStats :=
  let mode := normalizeMode edge.mode
  let distance : ℚ := match edge.distanceKm with
    | some d => d
    | none => geoDist ⟨fromNode.lng, fromNode.lat⟩ ⟨toNode.lng, toNode.lat⟩
  match cfg.transport with
  | none => none
  | some tf =>
    match tf mode with
    | none => none
    | some tCfg =>
      let speed := tCfg.speedKmH.map (fun s => max s 1)
      let timeBase := speed.map (fun s => distance / s)
      let costBase := tCfg.costPerKm.map (fun c => distance * c)
      let co2 := tCfg.co2PerKm.map (fun c => distance * c)
      let timeOv : Option ℚ := match edge.timeHours with
        | some t => if 0 < t then some t else timeBase
        | none => timeBase
      let costOv : Option ℚ := match edge.cost with
        | some c => if 0 < c then some c else costBase
        | none => costBase
      let finish : Option ℚ → Option ℚ → Option DynLegStats := fun timeCb costCb =>
        let midPoint : GeoPoint :=
          ⟨(fromNode.lng + toNode.lng) / 2, (fromNode.lat + toNode.lat) / 2⟩
        let acc := events.foldl (applyEventDyn geoDist mode midPoint)
          ⟨timeCb, costCb, [], false⟩
        some ⟨mode, distance, acc.timeHours, acc.cost, co2, acc.affectedEvents,
          acc.blocked⟩
      if strTruthy fromNode.region && strTruthy toNode.region &&
          !(fromNode.region = toNode.region) then
        match cfg.tariff with
        | none => none
        | some tar =>
          finish (jsAdd timeOv tar.crossBorderDelayHours)
            (jsAdd costOv tar.crossBorderCost)
      else finish timeOv costOv

/-- A dynamic configuration with a transport table that contains no entry
for any mode (for example after `config.json` was replaced by a patch that
dropped the per-mode entries). -/
def dynConfigMissingModes : DynConfig :=
  { transport := some (fun _ => none), tariff := some {}, weights := {} }

/-! ## Batch behavior: order, malformed tasks, and taskId defaulting -/

/-- The normalized task of a batch entry that carries an explicit task id. -/
def planTaskOfInput (t2 : TaskInput) : PlanTask :=
  ⟨t2.taskId.getD "", t2.originId, t2.destinationId, t2.objective⟩

/-- Batch entry with a missing `originId` (malformed). -/
def testTaskMalformed : TaskInput := ⟨none, none, some "B", none⟩

/-- Valid batch entry on the test network, without an explicit task id. -/
def testTaskValid : TaskInput := ⟨none, some "A", some "B", some "min_cost"⟩

/-- Batch with the malformed task in first position. -/
def testBatchRequest : PlanRequest :=
  { tasks := some [testTaskMalformed, testTaskValid],
    nodes := some [testNodeA, testNodeB], edges := some [testEdgeAB] }

/-- The same batch with the malformed task removed. -/
def testBatchRequestReduced : PlanRequest :=
  { tasks := some [testTaskValid],
    nodes := some [testNodeA, testNodeB], edges := some [testEdgeAB] }

/-! ## Structural facts about built graphs and paths -/

/-- Well-formedness of a graph for the solver: every adjacency entry hangs
off a known key and points to a known key. -/
def GraphWF (gr : Graph) : Prop :=
  ∀ u e, e ∈ gr.adj u → gr.nodeIds.contains u = true ∧ gr.nodeIds.contains e.«to» = true

/-! ## The Dijkstra loop invariant -/

/-- Invariant of the `dijkstra` main loop.  `keys` is the key list of the
`dist` object; finite tentative distances are realizable path weights;
visited keys carry settled (lower-bound) distances with all their outgoing
edges relaxed; predecessor entries record one relaxation step from a
visited key, and they are ordered by visiting order, which makes the final
path walk well-founded. -/
structure DInv (gr : Graph) (o : String) (keys : List String) (s : DijkstraState) :
    Prop where
  dist_keys : ∀ i, (s.dist i).isSome = true ↔ keys.contains i = true
  dist_nonneg : ∀ i (x : ℚ), s.dist i = some (x : WithTop ℚ) → 0 ≤ x
  dist_origin : s.dist o = some 0
  reach : ∀ i (x : ℚ), s.dist i = some (x : WithTop ℚ) →
    ∃ p, IsPath gr.adj o i p ∧ pathWeight p = x
  visited_keys : ∀ i, s.visited i = true → keys.contains i = true
  visited_finite : ∀ i, s.visited i = true → ∃ x : ℚ, s.dist i = some (x : WithTop ℚ)
  visited_lb : ∀ i, s.visited i = true → ∀ x : ℚ, s.dist i = some (x : WithTop ℚ) →
    ∀ q, IsPath gr.adj o i q → x ≤ pathWeight q
  relaxed : ∀ u, s.visited u = true → ∀ e ∈ gr.adj u, ∀ xu : ℚ,
    s.dist u = some (xu : WithTop ℚ) →
    ∃ xv : ℚ, s.dist e.«to» = some (xv : WithTop ℚ) ∧ xv ≤ xu + e.weight
  prev_spec : ∀ v st, s.prev v = some st → st.edge ∈ gr.adj st.«from» ∧
    st.edge.«to» = v ∧ s.visited st.«from» = true ∧
    ∃ xu xv : ℚ, s.dist st.«from» = some (xu : WithTop ℚ) ∧
      s.dist v = some (xv : WithTop ℚ) ∧ xv = xu + st.edge.weight
  prev_origin : s.prev o = none
  prev_some : ∀ v (x : ℚ), s.dist v = some (x : WithTop ℚ) → v ≠ o →
    (s.prev v).isSome = true
  order : ∃ vl : List String, vl.Nodup ∧ (∀ i, s.visited i = true ↔ i ∈ vl) ∧
    ∀ v st, s.prev v = some st → st.«from» ∈ vl ∧
      (v ∈ vl → vl.indexOf st.«from» < vl.indexOf v)

/-- The `visited[u] = true` assignment performed right after popping `u`. -/
def markVisited (u : String) (s : DijkstraState) : DijkstraState :=
  { s with visited := fun i => if i = u then true else s.visited i }

/-- Invariant holding while the popped node `u`'s outgoing edges are folded
through `relaxStep`: the `DInv` fields with `relaxed` split into the other
visited nodes (`relaxed_old`) and the prefix `done` of `u`'s adjacency list
already processed (`relaxed_done`). -/
structure RInv (gr : Graph) (o : String) (keys : List String) (u : String) (du : ℚ)
    (done : List AdjEntry) (s : DijkstraState) : Prop where
  dist_keys : ∀ i, (s.dist i).isSome = true ↔ keys.contains i = true
  dist_nonneg : ∀ i (x : ℚ), s.dist i = some (x : WithTop ℚ) → 0 ≤ x
  dist_origin : s.dist o = some 0
  reach : ∀ i (x : ℚ), s.dist i = some (x : WithTop ℚ) →
    ∃ p, IsPath gr.adj o i p ∧ pathWeight p = x
  visited_keys : ∀ i, s.visited i = true → keys.contains i = true
  visited_finite : ∀ i, s.visited i = true → ∃ x : ℚ, s.dist i = some (x : WithTop ℚ)
  visited_lb : ∀ i, s.visited i = true → ∀ x : ℚ, s.dist i = some (x : WithTop ℚ) →
    ∀ q, IsPath gr.adj o i q → x ≤ pathWeight q
  prev_spec : ∀ v st, s.prev v = some st → st.edge ∈ gr.adj st.«from» ∧
    st.edge.«to» = v ∧ s.visited st.«from» = true ∧
    ∃ xu xv : ℚ, s.dist st.«from» = some (xu : WithTop ℚ) ∧
      s.dist v = some (xv : WithTop ℚ) ∧ xv = xu + st.edge.weight
  prev_origin : s.prev o = none
  prev_some : ∀ v (x : ℚ), s.dist v = some (x : WithTop ℚ) → v ≠ o →
    (s.prev v).isSome = true
  order : ∃ vl : List String, vl.Nodup ∧ (∀ i, s.visited i = true ↔ i ∈ vl) ∧
    ∀ v st, s.prev v = some st → st.«from» ∈ vl ∧
      (v ∈ vl → vl.indexOf st.«from» < vl.indexOf v)
  dist_u : s.dist u = some (du : WithTop ℚ)
  visited_u : s.visited u = true
  relaxed_old : ∀ x, s.visited x = true → x ≠ u → ∀ e ∈ gr.adj x, ∀ xu : ℚ,
    s.dist x = some (xu : WithTop ℚ) →
    ∃ xv : ℚ, s.dist e.«to» = some (xv : WithTop ℚ) ∧ xv ≤ xu + e.weight
  relaxed_done : ∀ e ∈ done, ∃ xv : ℚ,
    s.dist e.«to» = some (xv : WithTop ℚ) ∧ xv ≤ du + e.weight

/-- Number of keys not yet visited: the termination measure of the loop. -/
def unvisitedCount (keys : List String) (s : DijkstraState) : Nat :=
  (keys.filter (fun i => s.visited i = false)).length

/-! ## The Shanghai → Duisburg acceptance scenario -/

/-- Modelled from the spec: the `totalCost` of a returned solution is not
computed anywhere under `src/`; the spec defines it as the sum of each leg's
`cost` field, which is the definition adopted here for comparison. -/
def solutionTotalCost (sol : Solution) : ℚ := (sol.legs.map (fun l => l.cost)).sum

/-- Shanghai node of the built-in default network. -/
def nodeSH : Node := ⟨"CN_SHANGHAI", "上海", 121.5, 31.2, some "CN", some "port", false⟩

/-- Hamburg node of the built-in default network. -/
def nodeHAM : Node := ⟨"EU_HAMBURG", "汉堡", 9.99, 53.55, some "EU", some "port", false⟩

/-- Duisburg node of the built-in default network. -/
def nodeDUI : Node :=
  ⟨"EU_DUISBURG", "杜伊斯堡", 6.76, 51.43, some "EU", some "rail", false⟩

/-- The Shanghai → Hamburg sea edge of the default network. -/
def seaSHHAM : Edge := ⟨"CN_SHANGHAI", "EU_HAMBURG", some "sea", none, none, none⟩

/-- The Hamburg → Duisburg road edge of the default network. -/
def roadHAMDUI : Edge := ⟨"EU_HAMBURG", "EU_DUISBURG", some "road", none, none, none⟩

/-- The Shanghai → Duisburg `min_cost` request of the acceptance scenario. -/
def c8Request : PlanRequest :=
  { originId := some "CN_SHANGHAI", destinationId := some "EU_DUISBURG",
    objective := some "min_cost" }

/-- The single normalized task of the acceptance scenario. -/
def c8Task : PlanTask :=
  ⟨"task-1", some "CN_SHANGHAI", some "EU_DUISBURG", some "min_cost"⟩

/-- One event pass changes `timeHours` by exactly the delay of an applicable
event and nothing otherwise. -/
lemma applyEvent_timeHours (geoDist : GeoPoint → GeoPoint → ℚ) (mode : String)
    (midPoint : GeoPoint) (acc : EventAcc) (ev : DisruptionEvent) :
    (applyEvent geoDist mode midPoint acc ev).timeHours =
      acc.timeHours + (if eventApplicable geoDist mode midPoint ev then eventDelay ev else 0) := by
  unfold applyEvent eventApplicable eventDelay
  cases hc : ev.center with
  | none => simp
  | some center =>
    dsimp only
    split
    · simp
    · split
      · simp
      · split
        next hd =>
          cases hdel : ev.delayHours with
          | none => simp [hd]
          | some x =>
            dsimp only
            split <;> simp [hd, *]
        next hd => simp [hd]

/-- One event pass multiplies `cost` by exactly the factor of an applicable
event and leaves it unchanged otherwise. -/
lemma applyEvent_cost (geoDist : GeoPoint → GeoPoint → ℚ) (mode : String)
    (midPoint : GeoPoint) (acc : EventAcc) (ev : DisruptionEvent) :
    (applyEvent geoDist mode midPoint acc ev).cost =
      acc.cost * (if eventApplicable geoDist mode midPoint ev then eventFactor ev else 1) := by
  unfold applyEvent eventApplicable eventFactor
  cases hc : ev.center with
  | none => simp
  | some center =>
    dsimp only
    split
    · simp
    · split
      · simp
      · split
        next hd => simp [hd]
        next hd => simp [hd]

/-- The event fold adds the applicable delays to the time and multiplies the
cost by the applicable factors, in list order. -/
lemma foldl_applyEvent (geoDist : GeoPoint → GeoPoint → ℚ) (mode : String)
    (midPoint : GeoPoint) (events : List DisruptionEvent) : ∀ acc : EventAcc,
    (events.foldl (applyEvent geoDist mode midPoint) acc).timeHours =
      acc.timeHours +
        (((events.filter (eventApplicable geoDist mode midPoint)).map eventDelay).sum) ∧
    (events.foldl (applyEvent geoDist mode midPoint) acc).cost =
      acc.cost *
        (((events.filter (eventApplicable geoDist mode midPoint)).map eventFactor).prod) := by
  induction events with
  | nil => intro acc; simp
  | cons ev rest ih =>
    intro acc
    have ht := applyEvent_timeHours geoDist mode midPoint acc ev
    have hc := applyEvent_cost geoDist mode midPoint acc ev
    have := ih (applyEvent geoDist mode midPoint acc ev)
    by_cases hap : eventApplicable geoDist mode midPoint ev
    · simp only [List.foldl_cons, List.filter_cons, hap, if_pos, this.1, this.2, ht, hc]
      constructor
      · simp [hap, add_assoc]
      · simp [hap, mul_assoc]
    · simp only [List.foldl_cons, List.filter_cons, this.1, this.2, ht, hc]
      constructor
      · simp [hap]
      · simp [hap]

/-- Claim C4: for a single leg, the cost model adds the configured
cross-border cost and delay exactly once (a flat surcharge independent of
the leg and its distance) exactly when the endpoints carry differing
non-empty regions, and adds nothing otherwise; there is no path-level
surcharge because the only tariff application site is this per-leg one. -/
theorem crossBorder_surcharge_once_per_leg (geoDist : GeoPoint → GeoPoint → ℚ)
    (edge : Edge) (fromNode toNode : Node) (cfg : Config) :
    computeLegStats geoDist edge fromNode toNode cfg [] =
      (if crossBorderLeg fromNode toNode then
        { legBaseStats geoDist edge fromNode toNode cfg with
          timeHours := (legBaseStats geoDist edge fromNode toNode cfg).timeHours +
            cfg.tariff.crossBorderDelayHours,
          cost := (legBaseStats geoDist edge fromNode toNode cfg).cost +
            cfg.tariff.crossBorderCost }
      else legBaseStats geoDist edge fromNode toNode cfg) := by
  unfold computeLegStats legBaseStats crossBorderLeg
  by_cases h : (strTruthy fromNode.region && strTruthy toNode.region &&
      !(fromNode.region = toNode.region)) = true
  · simp only [h, if_true, List.foldl_nil]
  · simp only [eq_false_of_ne_true h, Bool.false_eq_true, if_false, List.foldl_nil]

/-- Claim C5: over any event list, each applicable event (resolvable
center, positive radius, mode allowed, midpoint within radius) contributes
its positive delay additively to the leg time and its positive cost factor
multiplicatively to the leg cost (non-positive factors acting as 1), the
events being combined in input-list order. -/
theorem events_compound_in_order (geoDist : GeoPoint → GeoPoint → ℚ) (edge : Edge)
    (fromNode toNode : Node) (cfg : Config) (events : List DisruptionEvent) :
    (computeLegStats geoDist edge fromNode toNode cfg events).timeHours =
      (computeLegStats geoDist edge fromNode toNode cfg []).timeHours +
        (((events.filter (eventApplicable geoDist (normalizeMode edge.mode)
          ⟨(fromNode.lng + toNode.lng) / 2, (fromNode.lat + toNode.lat) / 2⟩)).map
            eventDelay).sum) ∧
    (computeLegStats geoDist edge fromNode toNode cfg events).cost =
      (computeLegStats geoDist edge fromNode toNode cfg []).cost *
        (((events.filter (eventApplicable geoDist (normalizeMode edge.mode)
          ⟨(fromNode.lng + toNode.lng) / 2, (fromNode.lat + toNode.lat) / 2⟩)).map
            eventFactor).prod) := by
  unfold computeLegStats
  dsimp only
  constructor
  · rw [(foldl_applyEvent geoDist (normalizeMode edge.mode) _ events _).1]
    simp
  · rw [(foldl_applyEvent geoDist (normalizeMode edge.mode) _ events _).2]
    simp

/-! ## Characterization of the built adjacency lists and the mode filter -/

/-- `normalizeMode` always returns one of the four transport modes. -/
lemma normalizeMode_cases (m : Option String) :
    normalizeMode m = "road" ∨ normalizeMode m = "sea" ∨ normalizeMode m = "air" ∨
      normalizeMode m = "rail" := by
  unfold normalizeMode
  cases m with
  | none => simp
  | some s =>
    dsimp only
    split_ifs <;> simp

lemma mem_buildGraphStep (geoDist : GeoPoint → GeoPoint → ℚ) (nm : String → Option Node)
    (cfg : Config) (objective : String) (events : List DisruptionEvent)
    (a : String → List AdjEntry) (e0 : Edge) (u : String) (entry : AdjEntry) :
    entry ∈ (buildGraphStep geoDist nm cfg objective events a e0) u ↔
      entry ∈ a u ∨ ∃ fn tn, nm e0.«from» = some fn ∧ nm e0.«to» = some tn ∧
        e0.«from» = u ∧ (computeLegStats geoDist e0 fn tn cfg events).blocked = false ∧
        entry = adjEntryOf geoDist cfg objective events e0 fn tn := by
  unfold buildGraphStep adjEntryOf
  cases hf : nm e0.«from» with
  | none => simp
  | some fn =>
    cases ht : nm e0.«to» with
    | none => simp
    | some tn =>
      dsimp only
      by_cases hb : (computeLegStats geoDist e0 fn tn cfg events).blocked = true
      · simp [hb]
      · rw [if_neg hb]
        by_cases hu : u = e0.«from»
        · subst hu
          rw [if_pos rfl, List.mem_append]
          constructor
          · rintro (h | h)
            · exact Or.inl h
            · rw [List.mem_singleton] at h
              exact Or.inr ⟨fn, tn, rfl, rfl, rfl, eq_false_of_ne_true hb, h⟩
          · rintro (h | ⟨fn2, tn2, h1, h2, _, _, h5⟩)
            · exact Or.inl h
            · injection h1 with h1
              injection h2 with h2
              subst h1; subst h2
              exact Or.inr (List.mem_singleton.mpr h5)
        · rw [if_neg hu]
          constructor
          · exact fun h => Or.inl h
          · rintro (h | ⟨fn2, tn2, h1, h2, h3, _, _⟩)
            · exact h
            · exact absurd h3.symm hu

lemma mem_foldl_buildGraphStep (geoDist : GeoPoint → GeoPoint → ℚ)
    (nm : String → Option Node) (cfg : Config) (objective : String)
    (events : List DisruptionEvent) (edges : List Edge) :
    ∀ (a : String → List AdjEntry) (u : String) (entry : AdjEntry),
    entry ∈ (edges.foldl (buildGraphStep geoDist nm cfg objective events) a) u ↔
      entry ∈ a u ∨ ∃ e ∈ edges, ∃ fn tn, nm e.«from» = some fn ∧ nm e.«to» = some tn ∧
        e.«from» = u ∧ (computeLegStats geoDist e fn tn cfg events).blocked = false ∧
        entry = adjEntryOf geoDist cfg objective events e fn tn := by
  induction edges with
  | nil => intro a u entry; simp
  | cons e0 rest ih =>
    intro a u entry
    rw [List.foldl_cons, ih, mem_buildGraphStep]
    constructor
    · rintro ((h | h) | ⟨e, he, h⟩)
      · exact Or.inl h
      · exact Or.inr ⟨e0, List.mem_cons_self _ _, h⟩
      · exact Or.inr ⟨e, List.mem_cons_of_mem _ he, h⟩
    · rintro (h | ⟨e, he, h⟩)
      · exact Or.inl (Or.inl h)
      · rcases List.mem_cons.mp he with rfl | he2
        · exact Or.inl (Or.inr h)
        · exact Or.inr ⟨e, he2, h⟩

/-- Membership in a built adjacency list comes exactly from a
non-`blocked` input edge between two known nodes. -/
lemma mem_buildGraph_adj (geoDist : GeoPoint → GeoPoint → ℚ) (nodes : List Node)
    (edges : List Edge) (cfg : Config) (objective : String)
    (events : List DisruptionEvent) (u : String) (entry : AdjEntry) :
    entry ∈ (buildGraph geoDist nodes edges cfg objective events).adj u ↔
      ∃ e ∈ edges, ∃ fn tn, mkNodeMap nodes e.«from» = some fn ∧
        mkNodeMap nodes e.«to» = some tn ∧ e.«from» = u ∧
        (computeLegStats geoDist e fn tn cfg events).blocked = false ∧
        entry = adjEntryOf geoDist cfg objective events e fn tn := by
  unfold buildGraph
  rw [mem_foldl_buildGraphStep]
  simp

/-- Membership characterization of `filterEdgesByConstraintsAndModes`. -/
lemma mem_filterEdges (nodes : List Node) (edges : List Edge)
    (allowedModes : List String) (e : Edge) :
    e ∈ filterEdgesByConstraintsAndModes nodes edges allowedModes ↔
      e ∈ edges ∧ ∃ fn tn, mkNodeMap nodes e.«from» = some fn ∧
        mkNodeMap nodes e.«to» = some tn ∧
        (allowedModes.map (fun m => normalizeMode (some m))).contains
          (normalizeMode e.mode) = true ∧
        (normalizeMode e.mode = "road" ∨
          (normalizeMode e.mode = "air" ∧ normalizeNodeType fn.type = "airport" ∧
            normalizeNodeType tn.type = "airport") ∨
          (normalizeMode e.mode = "sea" ∧ normalizeNodeType fn.type = "port" ∧
            normalizeNodeType tn.type = "port") ∨
          (normalizeMode e.mode = "rail" ∧ normalizeNodeType fn.type = "rail" ∧
            normalizeNodeType tn.type = "rail")) := by
  unfold filterEdgesByConstraintsAndModes
  rw [List.mem_filter]
  refine and_congr_right fun _ => ?_
  cases hf : mkNodeMap nodes e.«from» with
  | none => simp
  | some fn =>
    cases ht : mkNodeMap nodes e.«to» with
    | none => simp
    | some tn =>
      dsimp only
      by_cases hal : (allowedModes.map fun m => normalizeMode (some m)).contains
          (normalizeMode e.mode) = true
      · rcases normalizeMode_cases e.mode with hm | hm | hm | hm <;>
          (rw [hm] at hal ⊢; simp [hal])
      · have hal2 := eq_false_of_ne_true hal
        rw [hal2]
        simp

lemma prevSub_relaxStep {gr : Graph} {u : String} {s : DijkstraState} {e : AdjEntry}
    (hs : PrevSub gr s) (he : e ∈ gr.adj u) : PrevSub gr (relaxStep u s e) := by
  unfold relaxStep
  cases hdu : s.dist u with
  | none => exact hs
  | some du =>
    dsimp only
    cases hdv : s.dist e.«to» with
    | none => exact hs
    | some dv =>
      dsimp only
      split
      · intro v st h
        dsimp only at h
        by_cases hv : v = e.«to»
        · rw [if_pos hv] at h
          injection h with h
          subst h
          exact he
        · rw [if_neg hv] at h
          exact hs v st h
      · exact hs

lemma prevSub_foldl {gr : Graph} {u : String} (l : List AdjEntry) :
    ∀ s : DijkstraState, (∀ e ∈ l, e ∈ gr.adj u) → PrevSub gr s →
      PrevSub gr (l.foldl (relaxStep u) s) := by
  induction l with
  | nil => intro s _ hs; exact hs
  | cons e rest ih =>
    intro s hl hs
    rw [List.foldl_cons]
    exact ih _ (fun e2 he2 => hl e2 (List.mem_cons_of_mem _ he2))
      (prevSub_relaxStep hs (hl e (List.mem_cons_self _ _)))

lemma prevSub_loop {gr : Graph} {keys : List String} {d : String} (fuel : Nat) :
    ∀ s : DijkstraState, PrevSub gr s → PrevSub gr (dijkstraLoop gr keys d fuel s) := by
  induction fuel with
  | zero => intro s hs; exact hs
  | succ fuel ih =>
    intro s hs
    unfold dijkstraLoop
    cases selectMin keys s with
    | none => exact hs
    | some u =>
      dsimp only
      split
      · exact hs
      · exact ih _ (prevSub_foldl _ _ (fun _ he => he) hs)

lemma mem_buildPathAux {prev : String → Option Step} (fuel : Nat) :
    ∀ (cur : String) (acc : List Step) (st : Step), st ∈ buildPathAux prev fuel cur acc →
      st ∈ acc ∨ ∃ v, prev v = some st := by
  induction fuel with
  | zero => intro cur acc st h; exact Or.inl h
  | succ fuel ih =>
    intro cur acc st h
    unfold buildPathAux at h
    cases hp : prev cur with
    | none => rw [hp] at h; exact Or.inl h
    | some st2 =>
      rw [hp] at h
      rcases ih _ _ _ h with h2 | h2
      · rcases List.mem_cons.mp h2 with rfl | h3
        · exact Or.inr ⟨cur, hp⟩
        · exact Or.inl h3
      · exact Or.inr h2

/-- Every step of a path returned by `dijkstra` uses an edge of the graph's
adjacency list of its `from` node. -/
lemma dijkstra_steps_mem_adj {gr : Graph} {o d : String} {p : List Step}
    (h : dijkstra gr o d = some p) : ∀ st ∈ p, st.edge ∈ gr.adj st.«from» := by
  intro st hst
  have hsub : PrevSub gr (dijkstraLoop gr (dijkstraKeys gr o) d
      ((dijkstraKeys gr o).length + 1) ⟨initDist gr o, fun _ => none, fun _ => false⟩) :=
    prevSub_loop _ _ (fun _ _ h2 => Option.noConfusion h2)
  unfold dijkstra at h
  dsimp only at h
  split at h
  · exact absurd h (by simp)
  · injection h with h
    subst h
    rcases mem_buildPathAux _ _ _ _ hst with h2 | ⟨v, hv⟩
    · simp at h2
    · exact hsub v st hv

/-- Restatement of the attempt body through the named attempt pipeline
pieces; both sides are definitionally equal. -/
lemma planAttemptBody_eq (geoDist : GeoPoint → GeoPoint → ℚ) (cfg : Config)
    (taskId originId destinationId : String) (baseNodes : Option (List Node))
    (baseEdges : Option (List Edge)) (events : List DisruptionEvent)
    (objectiveGraph : String) (allowedModes : List String) :
    planAttemptBody geoDist cfg taskId originId destinationId baseNodes baseEdges
      events objectiveGraph allowedModes =
      match mkNodeMap (attemptWorking baseNodes baseEdges).1 originId,
            mkNodeMap (attemptWorking baseNodes baseEdges).1 destinationId with
      | some originNode, some destinationNode =>
        (match dijkstra (attemptGraph geoDist cfg taskId baseNodes baseEdges events
            objectiveGraph originNode destinationNode allowedModes)
            originId destinationId with
         | some path =>
           if path.length = 0 then none
           else some (some ⟨path.map legOfStep,
             (attemptEnsured geoDist taskId baseNodes baseEdges originNode
               destinationNode allowedModes).ephemeralNodes.filter
               (fun n => n.id ≠ "" ∧ ((path.map legOfStep).foldl
                 (fun acc l => acc ++ [l.fromId, l.toId]) []).contains n.id),
             buildRenderHints (path.map legOfStep)
               (attemptGraph geoDist cfg taskId baseNodes baseEdges events
                 objectiveGraph originNode destinationNode allowedModes).nodeMap⟩)
         | none => none)
      | _, _ => some none := rfl

/-- A successful attempt body resolves both endpoints and finds a non-empty
path in the attempt graph whose steps become the solution legs. -/
lemma planAttemptBody_some_sol {geoDist : GeoPoint → GeoPoint → ℚ} {cfg : Config}
    {taskId originId destinationId : String} {baseNodes : Option (List Node)}
    {baseEdges : Option (List Edge)} {events : List DisruptionEvent}
    {objectiveGraph : String} {allowedModes : List String} {sol : Solution}
    (h : planAttemptBody geoDist cfg taskId originId destinationId baseNodes baseEdges
      events objectiveGraph allowedModes = some (some sol)) :
    ∃ originNode destinationNode path,
      mkNodeMap (attemptWorking baseNodes baseEdges).1 originId = some originNode ∧
      mkNodeMap (attemptWorking baseNodes baseEdges).1 destinationId = some destinationNode ∧
      dijkstra (attemptGraph geoDist cfg taskId baseNodes baseEdges events objectiveGraph
        originNode destinationNode allowedModes) originId destinationId = some path ∧
      path ≠ [] ∧ sol.legs = path.map legOfStep ∧
      sol.ephemeralNodes = (attemptEnsured geoDist taskId baseNodes baseEdges originNode
        destinationNode allowedModes).ephemeralNodes.filter
        (fun n => n.id ≠ "" ∧ ((path.map legOfStep).foldl
          (fun acc l => acc ++ [l.fromId, l.toId]) []).contains n.id) := by
  rw [planAttemptBody_eq] at h
  cases hon : mkNodeMap (attemptWorking baseNodes baseEdges).1 originId with
  | none => rw [hon] at h; simp at h
  | some originNode =>
    rw [hon] at h
    cases hdn : mkNodeMap (attemptWorking baseNodes baseEdges).1 destinationId with
    | none => rw [hdn] at h; simp at h
    | some destinationNode =>
      rw [hdn] at h
      dsimp only at h
      cases hdij : dijkstra (attemptGraph geoDist cfg taskId baseNodes baseEdges events
          objectiveGraph originNode destinationNode allowedModes)
          originId destinationId with
      | none => rw [hdij] at h; simp at h
      | some path =>
        rw [hdij] at h
        dsimp only at h
        by_cases hlen : path.length = 0
        · rw [if_pos hlen] at h; simp at h
        · rw [if_neg hlen] at h
          injection h with h
          injection h with h
          refine ⟨originNode, destinationNode, path, rfl, rfl, hdij, ?_, ?_, ?_⟩
          · intro hnil; exact hlen (by simp [hnil])
          · rw [← h]
          · rw [← h]

/-- A successful attempt loop went through a successful body on one of the
attempted mode sets. -/
lemma planAttempts_eq_some {geoDist : GeoPoint → GeoPoint → ℚ} {cfg : Config}
    {taskId originId destinationId : String} {baseNodes : Option (List Node)}
    {baseEdges : Option (List Edge)} {events : List DisruptionEvent}
    {objectiveGraph : String} : ∀ {attempts : List (List String)} {sol : Solution},
    planAttempts geoDist cfg taskId originId destinationId baseNodes baseEdges events
      objectiveGraph attempts = some sol →
    ∃ allowedModes ∈ attempts,
      planAttemptBody geoDist cfg taskId originId destinationId baseNodes baseEdges
        events objectiveGraph allowedModes = some (some sol) := by
  intro attempts
  induction attempts with
  | nil => intro sol h; exact absurd h (by simp [planAttempts])
  | cons ms rest ih =>
    intro sol h
    unfold planAttempts at h
    cases hb : planAttemptBody geoDist cfg taskId originId destinationId baseNodes
        baseEdges events objectiveGraph ms with
    | some r =>
      rw [hb] at h
      dsimp only at h
      subst h
      exact ⟨ms, List.mem_cons_self _ _, hb⟩
    | none =>
      rw [hb] at h
      dsimp only at h
      rcases ih h with ⟨ms2, hm2, hb2⟩
      exact ⟨ms2, List.mem_cons_of_mem _ hm2, hb2⟩

/-- A task with a non-null solution went through the attempt loop with its
resolved, non-empty origin and destination ids. -/
lemma planOneTask_sol {geoDist : GeoPoint → GeoPoint → ℚ} {cfg : Config} {task : PlanTask}
    {baseNodes : Option (List Node)} {baseEdges : Option (List Edge)}
    {events : List DisruptionEvent} {sol : Solution}
    (h : (planOneTask geoDist cfg task baseNodes baseEdges events).solution = some sol) :
    ∃ originId destinationId, task.originId = some originId ∧
      task.destinationId = some destinationId ∧ ¬ originId = "" ∧ ¬ destinationId = "" ∧
      planAttempts geoDist cfg task.taskId originId destinationId baseNodes baseEdges
        events (normalizeObjectiveToGraph task.objectiveRaw)
        (decideModeAttempts (normalizeObjectiveToOutput task.objectiveRaw)) = some sol := by
  unfold planOneTask at h
  cases ho : task.originId with
  | none => rw [ho] at h; simp at h
  | some originId =>
    cases hd : task.destinationId with
    | none => rw [ho, hd] at h; simp at h
    | some destinationId =>
      rw [ho, hd] at h
      dsimp only at h
      by_cases he : originId = "" ∨ destinationId = ""
      · rw [if_pos he] at h; simp at h
      · rw [if_neg he] at h
        push_neg at he
        exact ⟨originId, destinationId, rfl, rfl, he.1, he.2, h⟩

/-- Every leg of a returned solution is the rendering of a non-`blocked`
`computeLegStats` output for an edge of the filtered edge list of the
successful attempt, between two nodes of the node set used for that solve. -/
lemma planOneTask_legs_characterized {geoDist : GeoPoint → GeoPoint → ℚ} {cfg : Config}
    {task : PlanTask} {baseNodes : Option (List Node)} {baseEdges : Option (List Edge)}
    {events : List DisruptionEvent} {sol : Solution}
    (h : (planOneTask geoDist cfg task baseNodes baseEdges events).solution = some sol) :
    ∃ (ensured : EnsureState) (allowedModes : List String),
      ∀ leg ∈ sol.legs,
        ∃ e ∈ filterEdgesByConstraintsAndModes ensured.nodes ensured.edges allowedModes,
          ∃ fn tn, mkNodeMap ensured.nodes e.«from» = some fn ∧
            mkNodeMap ensured.nodes e.«to» = some tn ∧
            (computeLegStats geoDist e fn tn cfg events).blocked = false ∧
            leg = Leg.mk e.«from» e.«to»
              (computeLegStats geoDist e fn tn cfg events).mode
              (computeLegStats geoDist e fn tn cfg events).distanceKm
              (computeLegStats geoDist e fn tn cfg events).timeHours
              (computeLegStats geoDist e fn tn cfg events).cost
              (computeLegStats geoDist e fn tn cfg events).co2
              (computeLegStats geoDist e fn tn cfg events).affectedEvents := by
  rcases planOneTask_sol h with ⟨oid, did, _, _, _, _, hpa⟩
  rcases planAttempts_eq_some hpa with ⟨ms, _, hbody⟩
  rcases planAttemptBody_some_sol hbody with ⟨onode, dnode, path, hon, hdn, hdij, hne, hlegs, _⟩
  refine ⟨attemptEnsured geoDist task.taskId baseNodes baseEdges onode dnode ms, ms, ?_⟩
  intro leg hleg
  rw [hlegs] at hleg
  rcases List.mem_map.mp hleg with ⟨st, hst, rfl⟩
  have hmem := dijkstra_steps_mem_adj hdij st hst
  rw [attemptGraph] at hmem
  rcases (mem_buildGraph_adj _ _ _ _ _ _ _ _).mp hmem with
    ⟨e, he, fn, tn, hf, ht, hfrom, hnb, hentry⟩
  refine ⟨e, he, fn, tn, hf, ht, hnb, ?_⟩
  simp [legOfStep, hentry, adjEntryOf, mkAdjEntry, ← hfrom]

/-- Claim C2: an edge whose computed `LegStats` is `blocked` is never added
to the adjacency list (every adjacency entry comes from a non-blocked edge),
and consequently every leg of every returned solution renders a
`computeLegStats` output with `blocked = false`. -/
theorem blocked_legs_excluded :
    (∀ (geoDist : GeoPoint → GeoPoint → ℚ) (nodes : List Node) (edges : List Edge)
      (cfg : Config) (objective : String) (events : List DisruptionEvent)
      (u : String) (entry : AdjEntry),
      entry ∈ (buildGraph geoDist nodes edges cfg objective events).adj u →
      ∃ e ∈ edges, ∃ fn tn, mkNodeMap nodes e.«from» = some fn ∧
        mkNodeMap nodes e.«to» = some tn ∧ e.«from» = u ∧
        (computeLegStats geoDist e fn tn cfg events).blocked = false ∧
        entry = adjEntryOf geoDist cfg objective events e fn tn) ∧
    (∀ (geoDist : GeoPoint → GeoPoint → ℚ) (cfg : Config) (task : PlanTask)
      (baseNodes : Option (List Node)) (baseEdges : Option (List Edge))
      (events : List DisruptionEvent) (sol : Solution),
      (planOneTask geoDist cfg task baseNodes baseEdges events).solution = some sol →
      ∀ leg ∈ sol.legs, ∃ (workingNodes : List Node) (e : Edge) (fn tn : Node),
        mkNodeMap workingNodes e.«from» = some fn ∧
        mkNodeMap workingNodes e.«to» = some tn ∧
        (computeLegStats geoDist e fn tn cfg events).blocked = false ∧
        leg = Leg.mk e.«from» e.«to»
          (computeLegStats geoDist e fn tn cfg events).mode
          (computeLegStats geoDist e fn tn cfg events).distanceKm
          (computeLegStats geoDist e fn tn cfg events).timeHours
          (computeLegStats geoDist e fn tn cfg events).cost
          (computeLegStats geoDist e fn tn cfg events).co2
          (computeLegStats geoDist e fn tn cfg events).affectedEvents) := by
  constructor
  · intro geoDist nodes edges cfg objective events u entry h
    exact (mem_buildGraph_adj geoDist nodes edges cfg objective events u entry).mp h
  · intro geoDist cfg task baseNodes baseEdges events sol h leg hleg
    rcases planOneTask_legs_characterized h with ⟨E, ms, hlegs⟩
    rcases hlegs leg hleg with ⟨e, _, fn, tn, hf, ht, hnb, hlegeq⟩
    exact ⟨E.nodes, e, fn, tn, hf, ht, hnb, hlegeq⟩

/-- Witness for C2 on the concrete two-node road network. -/
theorem blocked_legs_excluded_witness :
    adjEntryOf testDist defaultConfig "cheap" [] testEdgeAB testNodeA testNodeB ∈
      (buildGraph testDist [testNodeA, testNodeB] [testEdgeAB] defaultConfig
        "cheap" []).adj "A" ∧
    ∃ e ∈ [testEdgeAB], ∃ fn tn,
      mkNodeMap [testNodeA, testNodeB] e.«from» = some fn ∧
      mkNodeMap [testNodeA, testNodeB] e.«to» = some tn ∧ e.«from» = "A" ∧
      (computeLegStats testDist e fn tn defaultConfig []).blocked = false ∧
      adjEntryOf testDist defaultConfig "cheap" [] testEdgeAB testNodeA testNodeB =
        adjEntryOf testDist defaultConfig "cheap" [] e fn tn := by
  have hmem : adjEntryOf testDist defaultConfig "cheap" [] testEdgeAB testNodeA testNodeB ∈
      (buildGraph testDist [testNodeA, testNodeB] [testEdgeAB] defaultConfig
        "cheap" []).adj "A" := by
    rw [show (buildGraph testDist [testNodeA, testNodeB] [testEdgeAB] defaultConfig
      "cheap" []).adj "A" = [adjEntryOf testDist defaultConfig "cheap" [] testEdgeAB
        testNodeA testNodeB] from rfl]
    exact List.mem_singleton.mpr rfl
  exact ⟨hmem, blocked_legs_excluded.1 testDist [testNodeA, testNodeB] [testEdgeAB]
    defaultConfig "cheap" [] "A" _ hmem⟩

/-- Claim C9: the mode filter keeps an air/sea/rail edge exactly when both
endpoints have the matching normalized facility type (road edges pass
regardless of endpoint types), and hence every air/sea/rail leg of a
returned solution connects nodes of the matching type in the node set of
that solve. -/
theorem mode_facility_feasibility :
    (∀ (nodes : List Node) (edges : List Edge) (allowedModes : List String) (e : Edge),
      e ∈ filterEdgesByConstraintsAndModes nodes edges allowedModes ↔
        e ∈ edges ∧ ∃ fn tn, mkNodeMap nodes e.«from» = some fn ∧
          mkNodeMap nodes e.«to» = some tn ∧
          (allowedModes.map (fun m => normalizeMode (some m))).contains
            (normalizeMode e.mode) = true ∧
          (normalizeMode e.mode = "road" ∨
            (normalizeMode e.mode = "air" ∧ normalizeNodeType fn.type = "airport" ∧
              normalizeNodeType tn.type = "airport") ∨
            (normalizeMode e.mode = "sea" ∧ normalizeNodeType fn.type = "port" ∧
              normalizeNodeType tn.type = "port") ∨
            (normalizeMode e.mode = "rail" ∧ normalizeNodeType fn.type = "rail" ∧
              normalizeNodeType tn.type = "rail"))) ∧
    (∀ (geoDist : GeoPoint → GeoPoint → ℚ) (cfg : Config) (task : PlanTask)
      (baseNodes : Option (List Node)) (baseEdges : Option (List Edge))
      (events : List DisruptionEvent) (sol : Solution),
      (planOneTask geoDist cfg task baseNodes baseEdges events).solution = some sol →
      ∃ workingNodes : List Node, ∀ leg ∈ sol.legs, ∃ fn tn,
        mkNodeMap workingNodes leg.fromId = some fn ∧
        mkNodeMap workingNodes leg.toId = some tn ∧
        (leg.mode = "air" → normalizeNodeType fn.type = "airport" ∧
          normalizeNodeType tn.type = "airport") ∧
        (leg.mode = "sea" → normalizeNodeType fn.type = "port" ∧
          normalizeNodeType tn.type = "port") ∧
        (leg.mode = "rail" → normalizeNodeType fn.type = "rail" ∧
          normalizeNodeType tn.type = "rail")) := by
  constructor
  · exact mem_filterEdges
  · intro geoDist cfg task baseNodes baseEdges events sol h
    rcases planOneTask_legs_characterized h with ⟨E, ms, hlegs⟩
    refine ⟨E.nodes, ?_⟩
    intro leg hleg
    rcases hlegs leg hleg with ⟨e, he, fn, tn, hf, ht, _, hlegeq⟩
    subst hlegeq
    rcases (mem_filterEdges E.nodes E.edges ms e).mp he with
      ⟨_, fn2, tn2, hf2, ht2, _, hcases⟩
    rw [hf] at hf2
    rw [ht] at ht2
    injection hf2 with hf2
    injection ht2 with ht2
    subst hf2
    subst ht2
    refine ⟨fn, tn, hf, ht, ?_, ?_, ?_⟩
    · intro hm
      have hm2 : normalizeMode e.mode = "air" := hm
      rcases hcases with hx | ⟨_, h1, h2⟩ | ⟨hx, _, _⟩ | ⟨hx, _, _⟩
      · rw [hm2] at hx; exact absurd hx (by decide)
      · exact ⟨h1, h2⟩
      · rw [hm2] at hx; exact absurd hx (by decide)
      · rw [hm2] at hx; exact absurd hx (by decide)
    · intro hm
      have hm2 : normalizeMode e.mode = "sea" := hm
      rcases hcases with hx | ⟨hx, _, _⟩ | ⟨_, h1, h2⟩ | ⟨hx, _, _⟩
      · rw [hm2] at hx; exact absurd hx (by decide)
      · rw [hm2] at hx; exact absurd hx (by decide)
      · exact ⟨h1, h2⟩
      · rw [hm2] at hx; exact absurd hx (by decide)
    · intro hm
      have hm2 : normalizeMode e.mode = "rail" := hm
      rcases hcases with hx | ⟨hx, _, _⟩ | ⟨hx, _, _⟩ | ⟨_, h1, h2⟩
      · rw [hm2] at hx; exact absurd hx (by decide)
      · rw [hm2] at hx; exact absurd hx (by decide)
      · rw [hm2] at hx; exact absurd hx (by decide)
      · exact ⟨h1, h2⟩

/-- Witness for C9 on a concrete successful solve. -/
theorem mode_facility_feasibility_witness :
    (planOneTask testDist defaultConfig testTask (some [testNodeA, testNodeB])
      (some [testEdgeAB]) []).solution = some testSolution ∧
    ∃ workingNodes : List Node, ∀ leg ∈ testSolution.legs, ∃ fn tn,
      mkNodeMap workingNodes leg.fromId = some fn ∧
      mkNodeMap workingNodes leg.toId = some tn ∧
      (leg.mode = "air" → normalizeNodeType fn.type = "airport" ∧
        normalizeNodeType tn.type = "airport") ∧
      (leg.mode = "sea" → normalizeNodeType fn.type = "port" ∧
        normalizeNodeType tn.type = "port") ∧
      (leg.mode = "rail" → normalizeNodeType fn.type = "rail" ∧
        normalizeNodeType tn.type = "rail") := by
  have h : (planOneTask testDist defaultConfig testTask (some [testNodeA, testNodeB])
      (some [testEdgeAB]) []).solution = some testSolution := by with_unfolding_all rfl
  exact ⟨h, mode_facility_feasibility.2 testDist defaultConfig testTask
    (some [testNodeA, testNodeB]) (some [testEdgeAB]) [] testSolution h⟩

/-! ## Ephemeral node ids and determinism of the batch planner -/

lemma selectFacilityId_spec (geoDist : GeoPoint → GeoPoint → ℚ) (tid : String)
    (st : EnsureState) (index : String → List Node) (en : Node) (ft role : String) :
    ∃ l, (selectFacilityId geoDist tid st index en ft role).1.nodes = st.nodes ++ l ∧
      (selectFacilityId geoDist tid st index en ft role).1.ephemeralNodes =
        st.ephemeralNodes ∧
      (selectFacilityId geoDist tid st index en ft role).1.edges = st.edges ∧
      ∀ n ∈ l, n.id = makeEphemeralFacilityId tid en.id ft role ∧ n.ephemeral = true := by
  unfold selectFacilityId
  by_cases h1 : normalizeNodeType en.type = ft
  · exact ⟨[], by simp [h1]⟩
  · rw [if_neg h1]
    dsimp only
    by_cases h2 : (index ft).length > 0
    · rw [if_pos h2]
      exact ⟨[], by simp⟩
    · rw [if_neg h2]
      cases h3 : st.nodeMap (makeEphemeralFacilityId tid en.id ft role) with
      | some n0 => exact ⟨[], by simp⟩
      | none =>
        refine ⟨[⟨makeEphemeralFacilityId tid en.id ft role, en.name, en.lng, en.lat,
          en.region, some ft, true⟩], rfl, rfl, rfl, ?_⟩
        intro n hn
        rw [List.mem_singleton] at hn
        subst hn
        exact ⟨rfl, rfl⟩

lemma ensureOne_ephemeral_spec (geoDist : GeoPoint → GeoPoint → ℚ) (tid : String)
    (index : String → List Node) (onode dnode : Node) (st : EnsureState) (ft : String) :
    ∀ n ∈ (ensureOneFacilityType geoDist tid index onode dnode st ft).ephemeralNodes,
      n ∈ st.ephemeralNodes ∨ EphemeralIdOk tid onode dnode n := by
  unfold ensureOneFacilityType
  rcases selectFacilityId_spec geoDist tid st index onode ft "origin" with
    ⟨l1, h1n, h1e, _, h1P⟩
  rcases selectFacilityId_spec geoDist tid
    (selectFacilityId geoDist tid st index onode ft "origin").1 index dnode ft
    "destination" with ⟨l2, h2n, h2e, _, h2P⟩
  intro n hn
  dsimp only at hn
  rw [h2e, h1e] at hn
  rw [h2n, h1n, List.append_assoc, List.drop_left] at hn
  rcases List.mem_append.mp hn with h | h
  · exact Or.inl h
  · rcases List.mem_append.mp (List.mem_of_mem_filter h) with h2 | h2
    · rcases h1P n h2 with ⟨hid, heph⟩
      exact Or.inr ⟨onode.id, "origin", ft, Or.inl ⟨rfl, rfl⟩, hid, heph⟩
    · rcases h2P n h2 with ⟨hid, heph⟩
      exact Or.inr ⟨dnode.id, "destination", ft, Or.inr ⟨rfl, rfl⟩, hid, heph⟩

lemma ensureFacilities_ephemeral_ok (geoDist : GeoPoint → GeoPoint → ℚ) (taskId : String)
    (nodes : List Node) (edges : List Edge) (originNode destinationNode : Node)
    (allowedModes : List String) :
    ∀ n ∈ (ensureFacilitiesForModes geoDist taskId nodes edges originNode
      destinationNode allowedModes).ephemeralNodes,
      EphemeralIdOk taskId originNode destinationNode n := by
  unfold ensureFacilitiesForModes
  dsimp only
  generalize dedupStr _ = types
  have hgen : ∀ (l : List String) (st : EnsureState),
      (∀ n ∈ st.ephemeralNodes, EphemeralIdOk taskId originNode destinationNode n) →
      ∀ n ∈ (l.foldl (ensureOneFacilityType geoDist taskId (buildFacilityIndex nodes)
        originNode destinationNode) st).ephemeralNodes,
        EphemeralIdOk taskId originNode destinationNode n := by
    intro l
    induction l with
    | nil => intro st hst; exact hst
    | cons ft rest ih =>
      intro st hst
      rw [List.foldl_cons]
      apply ih
      intro n hn
      rcases ensureOne_ephemeral_spec geoDist taskId (buildFacilityIndex nodes)
        originNode destinationNode st ft n hn with h | h
      · exact hst n h
      · exact h
  exact hgen types ⟨nodes, mkNodeMap nodes, edges, []⟩ (by intro n hn; simp at hn)

/-- Claim C3: ephemeral facility ids are pure functions of
`(taskId, endpointId, facilityType, role)` — every collected ephemeral node
carries such an id for one of the two endpoints — and the whole batch
planner is deterministic: identical tasks, network, configuration and
events produce identical results. -/
theorem planner_deterministic_ephemeral_ids :
    (∀ (geoDist : GeoPoint → GeoPoint → ℚ) (taskId : String) (nodes : List Node)
      (edges : List Edge) (originNode destinationNode : Node)
      (allowedModes : List String) (n : Node),
      n ∈ (ensureFacilitiesForModes geoDist taskId nodes edges originNode
        destinationNode allowedModes).ephemeralNodes →
      EphemeralIdOk taskId originNode destinationNode n) ∧
    (∀ (geoDist : GeoPoint → GeoPoint → ℚ) (cfg : Config) (r1 r2 : PlanRequest),
      r1 = r2 → planScenario geoDist cfg r1 = planScenario geoDist cfg r2) := by
  constructor
  · intro geoDist taskId nodes edges originNode destinationNode allowedModes n hn
    exact ensureFacilities_ephemeral_ok geoDist taskId nodes edges originNode
      destinationNode allowedModes n hn
  · intro geoDist cfg r1 r2 h
    rw [h]

/-- Witness for C3: a concrete run that synthesizes an ephemeral port node
for the origin endpoint, via the claim theorem. -/
theorem planner_deterministic_ephemeral_ids_witness :
    (⟨"EPH_t_A_port_origin", "", 0, 0, none, some "port", true⟩ : Node) ∈
      (ensureFacilitiesForModes testDist "t" [testNodeA, testNodeB] [testEdgeAB]
        testNodeA testNodeB ["road", "sea"]).ephemeralNodes ∧
    EphemeralIdOk "t" testNodeA testNodeB
      ⟨"EPH_t_A_port_origin", "", 0, 0, none, some "port", true⟩ := by
  have hmem : (⟨"EPH_t_A_port_origin", "", 0, 0, none, some "port", true⟩ : Node) ∈
      (ensureFacilitiesForModes testDist "t" [testNodeA, testNodeB] [testEdgeAB]
        testNodeA testNodeB ["road", "sea"]).ephemeralNodes := by
    rw [show (ensureFacilitiesForModes testDist "t" [testNodeA, testNodeB] [testEdgeAB]
      testNodeA testNodeB ["road", "sea"]).ephemeralNodes =
      [⟨"EPH_t_A_port_origin", "", 0, 0, none, some "port", true⟩,
       ⟨"EPH_t_B_port_destination", "", 1, 0, none, some "port", true⟩] from by
        with_unfolding_all rfl]
    exact List.mem_cons_self _ _
  exact ⟨hmem, planner_deterministic_ephemeral_ids.1 testDist "t" [testNodeA, testNodeB]
    [testEdgeAB] testNodeA testNodeB ["road", "sea"] _ hmem⟩

/-! ## Properties of the minimum-selection scan -/

lemma selectMin_go (s : DijkstraState) (l : List String) :
    ∀ acc : Option String × WithTop ℚ,
    (acc.1 = none → acc.2 = ⊤) →
    (∀ u, acc.1 = some u → s.dist u = some acc.2 ∧ s.visited u = false ∧ acc.2 < ⊤) →
    ((l.foldl (selectMinFold s) acc).1 = none → (l.foldl (selectMinFold s) acc).2 = ⊤) ∧
    (∀ u, (l.foldl (selectMinFold s) acc).1 = some u →
      s.dist u = some (l.foldl (selectMinFold s) acc).2 ∧ s.visited u = false ∧
      (l.foldl (selectMinFold s) acc).2 < ⊤ ∧ (acc.1 = some u ∨ u ∈ l)) ∧
    (l.foldl (selectMinFold s) acc).2 ≤ acc.2 ∧
    (∀ i ∈ l, s.visited i = false → ∀ dv, s.dist i = some dv →
      (l.foldl (selectMinFold s) acc).2 ≤ dv) := by
  induction l with
  | nil =>
    intro acc hn hs
    refine ⟨hn, ?_, le_refl _, ?_⟩
    · intro u hu
      rcases hs u hu with ⟨h1, h2, h3⟩
      exact ⟨h1, h2, h3, Or.inl hu⟩
    · intro i hi
      exact absurd hi (List.not_mem_nil i)
  | cons i0 rest ih =>
    intro acc hn hs
    rw [List.foldl_cons]
    have hstep : ∀ (racc : Option String × WithTop ℚ),
        selectMinFold s acc i0 = racc →
        (racc = acc ∨ (racc.1 = some i0 ∧ s.dist i0 = some racc.2 ∧
          s.visited i0 = false ∧ racc.2 < acc.2)) := by
      intro racc hr
      unfold selectMinFold at hr
      cases hd : s.dist i0 with
      | none => rw [hd] at hr; exact Or.inl hr.symm
      | some dv =>
        rw [hd] at hr
        dsimp only at hr
        by_cases hc : s.visited i0 = false ∧ dv < acc.2
        · rw [if_pos hc] at hr
          subst hr
          exact Or.inr ⟨rfl, rfl, hc.1, hc.2⟩
        · rw [if_neg hc] at hr
          exact Or.inl hr.symm
    rcases hstep _ rfl with hcase | ⟨h1, h2, h3, h4⟩
    · rw [hcase]
      rcases ih acc hn hs with ⟨g1, g2, g3, g4⟩
      refine ⟨g1, ?_, g3, ?_⟩
      · intro u hu
        rcases g2 u hu with ⟨k1, k2, k3, k4⟩
        refine ⟨k1, k2, k3, ?_⟩
        rcases k4 with k4 | k4
        · exact Or.inl k4
        · exact Or.inr (List.mem_cons_of_mem _ k4)
      · intro i hi hv dv hdv
        rcases List.mem_cons.mp hi with rfl | hi2
        · -- the step did not update, so either i was visited or acc.2 ≤ dv
          unfold selectMinFold at hcase
          rw [hdv] at hcase
          dsimp only at hcase
          by_cases hc : s.visited i = false ∧ dv < acc.2
          · rw [if_pos hc] at hcase
            have : dv = acc.2 := by rw [← hcase]
            exact le_trans g3 (le_of_eq this.symm)
          · push_neg at hc
            exact le_trans g3 (hc hv)
        · exact g4 i hi2 hv dv hdv
    · -- the step selected i0
      have hacc2 : (selectMinFold s acc i0) = (some i0, (selectMinFold s acc i0).2) := by
        cases hA : selectMinFold s acc i0 with
        | mk a b => rw [hA] at h1; dsimp only at h1; rw [h1]
      have hlt : (selectMinFold s acc i0).2 < ⊤ := lt_of_lt_of_le h4 le_top
      rcases ih (selectMinFold s acc i0)
        (by rw [hacc2]; intro hcon; simp at hcon)
        (by intro u hu; rw [hacc2] at hu; injection hu with hu; subst hu
            exact ⟨h2, h3, hlt⟩) with ⟨g1, g2, g3, g4⟩
      refine ⟨g1, ?_, le_trans g3 (le_of_lt h4), ?_⟩
      · intro u hu
        rcases g2 u hu with ⟨k1, k2, k3, k4⟩
        refine ⟨k1, k2, k3, ?_⟩
        rcases k4 with k4 | k4
        · rw [hacc2] at k4
          injection k4 with k4
          exact Or.inr (k4 ▸ List.mem_cons_self _ _)
        · exact Or.inr (List.mem_cons_of_mem _ k4)
      · intro i hi hv dv hdv
        rcases List.mem_cons.mp hi with rfl | hi2
        · rw [h2] at hdv
          injection hdv with hdv
          exact hdv ▸ g3
        · exact g4 i hi2 hv dv hdv

/-- A successful scan returns an unvisited key whose tentative distance is
finite and minimal among the unvisited keys. -/
lemma selectMin_some_spec {keys : List String} {s : DijkstraState} {u : String}
    (h : selectMin keys s = some u) :
    u ∈ keys ∧ s.visited u = false ∧ ∃ du : WithTop ℚ, s.dist u = some du ∧ du < ⊤ ∧
      ∀ i ∈ keys, s.visited i = false → ∀ dv, s.dist i = some dv → du ≤ dv := by
  unfold selectMin at h
  rcases selectMin_go s keys (none, ⊤) (fun _ => rfl) (by intro u hu; simp at hu) with
    ⟨_, g2, _, g4⟩
  rcases g2 u h with ⟨k1, k2, k3, k4⟩
  refine ⟨?_, k2, _, k1, k3, g4⟩
  rcases k4 with k4 | k4
  · simp at k4
  · exact k4

/-- A failed scan means every unvisited key has an infinite (or absent)
tentative distance. -/
lemma selectMin_none_spec {keys : List String} {s : DijkstraState}
    (h : selectMin keys s = none) :
    ∀ i ∈ keys, s.visited i = false → ∀ dv, s.dist i = some dv → dv = ⊤ := by
  unfold selectMin at h
  rcases selectMin_go s keys (none, ⊤) (fun _ => rfl) (by intro u hu; simp at hu) with
    ⟨g1, _, _, g4⟩
  intro i hi hv dv hdv
  have := g4 i hi hv dv hdv
  rw [g1 h] at this
  exact top_le_iff.mp this

/-! ## Planning a task whose origin equals its destination -/

lemma initDist_finite {gr : Graph} {o i : String} {du : WithTop ℚ}
    (h : initDist gr o i = some du) (hlt : du < ⊤) : i = o := by
  unfold initDist at h
  by_cases hio : i = o
  · exact hio
  · rw [if_neg hio] at h
    by_cases hc : gr.nodeIds.contains i = true
    · rw [if_pos hc] at h
      injection h with h
      subst h
      exact absurd hlt (lt_irrefl _)
    · rw [if_neg hc] at h
      exact Option.noConfusion h

/-- The solver pops the origin first and immediately breaks when it is also
the destination, leaving the predecessor map empty: no path is reported. -/
lemma dijkstra_self (gr : Graph) (o : String) : dijkstra gr o o = none := by
  unfold dijkstra
  dsimp only
  rw [dijkstraLoop]
  cases hsel : selectMin (dijkstraKeys gr o)
      ⟨initDist gr o, fun _ => none, fun _ => false⟩ with
  | none => rfl
  | some u =>
    rcases selectMin_some_spec hsel with ⟨_, _, du, hdu, hlt, _⟩
    have hu : u = o := initDist_finite hdu hlt
    subst hu
    dsimp only
    rw [if_pos rfl]

lemma planAttempts_self (geoDist : GeoPoint → GeoPoint → ℚ) (cfg : Config)
    (tid sid : String) (baseNodes : Option (List Node)) (baseEdges : Option (List Edge))
    (events : List DisruptionEvent) (obj : String) :
    ∀ attempts, planAttempts geoDist cfg tid sid sid baseNodes baseEdges events obj
      attempts = none := by
  intro attempts
  induction attempts with
  | nil => rfl
  | cons ms rest ih =>
    unfold planAttempts
    cases hb : planAttemptBody geoDist cfg tid sid sid baseNodes baseEdges events
        obj ms with
    | none => exact ih
    | some r =>
      cases r with
      | none => rfl
      | some sol =>
        exfalso
        rcases planAttemptBody_some_sol hb with ⟨_, _, path, _, _, hdij, _, _, _⟩
        rw [dijkstra_self] at hdij
        exact Option.noConfusion hdij

/-- Claim C10: a task whose origin id equals its destination id always gets
a `null` solution — the solver records no predecessor for the destination,
so every mode attempt fails — even though the destination is trivially
reachable from itself. -/
theorem origin_equals_destination_yields_null :
    (∀ (gr : Graph) (o : String), dijkstra gr o o = none) ∧
    (∀ (geoDist : GeoPoint → GeoPoint → ℚ) (cfg : Config) (task : PlanTask)
      (baseNodes : Option (List Node)) (baseEdges : Option (List Edge))
      (events : List DisruptionEvent),
      task.originId = task.destinationId →
      (planOneTask geoDist cfg task baseNodes baseEdges events).solution = none) := by
  refine ⟨fun gr o => dijkstra_self gr o, ?_⟩
  intro geoDist cfg task baseNodes baseEdges events heq
  unfold planOneTask
  cases ho : task.originId with
  | none =>
    have hd : task.destinationId = none := by rw [← heq]; exact ho
    rw [hd]
  | some sid =>
    have hd : task.destinationId = some sid := by rw [← heq]; exact ho
    rw [hd]
    dsimp only
    by_cases hse : sid = "" ∨ sid = ""
    · rw [if_pos hse]
    · rw [if_neg hse]
      exact planAttempts_self geoDist cfg task.taskId sid baseNodes baseEdges events
        (normalizeObjectiveToGraph task.objectiveRaw)
        (decideModeAttempts (normalizeObjectiveToOutput task.objectiveRaw))

/-- Witness for C10: a concrete A-to-A task on the test network. -/
theorem origin_equals_destination_yields_null_witness :
    (⟨"t", some "A", some "A", none⟩ : PlanTask).originId =
      (⟨"t", some "A", some "A", none⟩ : PlanTask).destinationId ∧
    (planOneTask testDist defaultConfig ⟨"t", some "A", some "A", none⟩
      (some [testNodeA, testNodeB]) (some [testEdgeAB]) []).solution = none :=
  ⟨rfl, origin_equals_destination_yields_null.2 testDist defaultConfig
    ⟨"t", some "A", some "A", none⟩ (some [testNodeA, testNodeB]) (some [testEdgeAB])
    [] rfl⟩

/-- Counterexample for claim C6: the leg cost model does not produce a
result for every configuration the external store may supply — a transport
table without the edge's mode entry makes `cfg.transport[mode].speedKmH`
throw, modelled by the `none` outcome. -/
theorem legStats_missing_transport_entry_fails :
    computeLegStatsDyn testDist testEdgeAB testNodeA testNodeB
      dynConfigMissingModes [] = none := by
  rfl

/-- Claim C6 (amended): the balanced objective weight falls back per field
to 0.5/0.3/0.2 for unset or non-numeric weights, and the leg cost model
produces a result (without the thrown-error outcome) whenever the transport
table has an entry for the leg's mode and, for cross-border legs, the
tariff section is present; non-numeric fields inside a present entry only
yield `NaN`-valued fields, never an error. -/
theorem config_fallbacks_amended :
    (∀ (stats : LegStats) (w : Weights),
      computeWeight stats "balanced" w =
        stats.cost * (w.balancedCostWeight.getD (5/10)) +
        stats.timeHours * (w.balancedTimeWeight.getD (3/10)) +
        stats.co2 * (w.balancedCo2Weight.getD (2/10))) ∧
    (∀ (geoDist : GeoPoint → GeoPoint → ℚ) (edge : Edge) (fromNode toNode : Node)
      (cfg : DynConfig) (events : List DisruptionEvent)
      (tf : String → Option DynTransportEntry) (entry : DynTransportEntry),
      cfg.transport = some tf → tf (normalizeMode edge.mode) = some entry →
      (crossBorderLeg fromNode toNode = true → cfg.tariff.isSome = true) →
      (computeLegStatsDyn geoDist edge fromNode toNode cfg events).isSome = true) := by
  constructor
  · intro stats w
    rcases w with ⟨a, b, c⟩
    cases a <;> cases b <;> cases c <;> rfl
  · intro geoDist edge fromNode toNode cfg events tf entry htf hentry htar
    unfold computeLegStatsDyn
    rw [htf]
    dsimp only
    rw [hentry]
    dsimp only
    by_cases hcb : (strTruthy fromNode.region && strTruthy toNode.region &&
        !(fromNode.region = toNode.region)) = true
    · rw [if_pos hcb]
      have := htar hcb
      cases htarv : cfg.tariff with
      | none => rw [htarv] at this; simp at this
      | some tar => rfl
    · rw [if_neg hcb]
      rfl

/-- Witness for the amended C6 on a concrete configuration whose road entry
is present. -/
theorem config_fallbacks_amended_witness :
    (({ transport := some (fun m => if m = "road"
        then some ⟨some 60, some 2, some (5/100)⟩ else none) } : DynConfig).transport =
      some (fun m => if m = "road" then some ⟨some 60, some 2, some (5/100)⟩
        else none)) ∧
    (computeLegStatsDyn testDist testEdgeAB testNodeA testNodeB
      { transport := some (fun m => if m = "road"
        then some ⟨some 60, some 2, some (5/100)⟩ else none) } []).isSome = true := by
  refine ⟨rfl, ?_⟩
  exact config_fallbacks_amended.2 testDist testEdgeAB testNodeA testNodeB _ []
    (fun m => if m = "road" then some ⟨some 60, some 2, some (5/100)⟩ else none)
    ⟨some 60, some 2, some (5/100)⟩ rfl (by rfl) (by decide)

lemma enumFrom_map_explicit (g : TaskInput → PlanTask)
    (f : Nat × TaskInput → PlanTask)
    (hfg : ∀ (n : Nat) (t2 : TaskInput), (∃ s, t2.taskId = some s ∧ s ≠ "") →
      f (n, t2) = g t2) :
    ∀ (l : List TaskInput) (n : Nat),
      (∀ t2 ∈ l, ∃ s, t2.taskId = some s ∧ s ≠ "") →
      (l.enumFrom n).map f = l.map g := by
  intro l
  induction l with
  | nil => intro n _; rfl
  | cons t2 rest ih =>
    intro n h
    rw [List.enumFrom_cons, List.map_cons, List.map_cons,
      hfg n t2 (h t2 (List.mem_cons_self _ _)),
      ih (n + 1) (fun t3 h3 => h t3 (List.mem_cons_of_mem _ h3))]

/-- With explicit non-empty task ids, batch normalization ignores positions. -/
lemma normalizeBatch_explicit {req : PlanRequest} {l : List TaskInput}
    (hreq : req.tasks = some l) (hne : l ≠ [])
    (h : ∀ t2 ∈ l, ∃ s, t2.taskId = some s ∧ s ≠ "") :
    normalizeBatchRequest req = l.map planTaskOfInput := by
  unfold normalizeBatchRequest
  rw [hreq]
  dsimp only
  rw [if_pos (by cases l with
    | nil => exact absurd rfl hne
    | cons a b => simp)]
  show (l.enumFrom 0).map _ = _
  apply enumFrom_map_explicit
  · intro n t2 ⟨s, hs, hsne⟩
    dsimp only
    rw [hs]
    dsimp only [planTaskOfInput]
    rw [if_neg hsne, hs]
    rfl
  · exact h

lemma planAttempts_unknown_endpoint {geoDist : GeoPoint → GeoPoint → ℚ} {cfg : Config}
    {tid oid did : String} {baseNodes : Option (List Node)}
    {baseEdges : Option (List Edge)} {events : List DisruptionEvent} {obj : String}
    (h : mkNodeMap (attemptWorking baseNodes baseEdges).1 oid = none ∨
      mkNodeMap (attemptWorking baseNodes baseEdges).1 did = none) :
    ∀ attempts, planAttempts geoDist cfg tid oid did baseNodes baseEdges events obj
      attempts = none := by
  intro attempts
  cases attempts with
  | nil => rfl
  | cons ms rest =>
    have hbody : planAttemptBody geoDist cfg tid oid did baseNodes baseEdges events
        obj ms = some none := by
      rw [planAttemptBody_eq]
      rcases h with h | h
      · rw [h]
      · cases ho : mkNodeMap (attemptWorking baseNodes baseEdges).1 oid with
        | none => rfl
        | some onode => rw [h]
    unfold planAttempts
    rw [hbody]

/-- Counterexample for claim C7: the malformed first task does get a `null`
solution and the batch returns one result per task in order, but the valid
task's result is NOT the same as if the malformed task were absent — its
auto-generated taskId shifts from `task-2` to `task-1`. -/
theorem malformed_removal_changes_sibling_result :
    planScenario testDist defaultConfig testBatchRequest =
      [⟨"task-1", "min_time", none⟩, ⟨"task-2", "min_cost", some testSolution⟩] ∧
    planScenario testDist defaultConfig testBatchRequestReduced =
      [⟨"task-1", "min_cost", some testSolution⟩] ∧
    (planScenario testDist defaultConfig testBatchRequest).get? 1 ≠
      (planScenario testDist defaultConfig testBatchRequestReduced).get? 0 := by
  have h1 : planScenario testDist defaultConfig testBatchRequest =
      [⟨"task-1", "min_time", none⟩, ⟨"task-2", "min_cost", some testSolution⟩] := by
    with_unfolding_all rfl
  have h2 : planScenario testDist defaultConfig testBatchRequestReduced =
      [⟨"task-1", "min_cost", some testSolution⟩] := by
    with_unfolding_all rfl
  refine ⟨h1, h2, ?_⟩
  rw [h1, h2]
  intro h
  simp at h

/-- Claim C7 (amended): the planner returns exactly one result per
normalized task in input order, each result a pure function of its own task
entry and the shared inputs; a malformed task (missing/empty or unknown
origin or destination id) gets a `null` solution for that task alone; and
when every batch entry carries an explicit non-empty `taskId`, the other
tasks' results are exactly the same when the malformed task is removed.
(Without explicit ids the positional `task-N` default ids shift, as the
counterexample shows.) -/
theorem batch_malformed_isolation_amended :
    (∀ (geoDist : GeoPoint → GeoPoint → ℚ) (cfg : Config) (req : PlanRequest),
      planScenario geoDist cfg req = (normalizeBatchRequest req).map
        (fun t => planOneTask geoDist cfg t req.nodes req.edges req.events)) ∧
    (∀ (geoDist : GeoPoint → GeoPoint → ℚ) (cfg : Config) (task : PlanTask)
      (baseNodes : Option (List Node)) (baseEdges : Option (List Edge))
      (events : List DisruptionEvent),
      (task.originId = none ∨ task.originId = some "" ∨ task.destinationId = none ∨
        task.destinationId = some "") →
      (planOneTask geoDist cfg task baseNodes baseEdges events).solution = none) ∧
    (∀ (geoDist : GeoPoint → GeoPoint → ℚ) (cfg : Config) (task : PlanTask)
      (baseNodes : Option (List Node)) (baseEdges : Option (List Edge))
      (events : List DisruptionEvent) (oid did : String),
      task.originId = some oid → task.destinationId = some did →
      (mkNodeMap (attemptWorking baseNodes baseEdges).1 oid = none ∨
        mkNodeMap (attemptWorking baseNodes baseEdges).1 did = none) →
      (planOneTask geoDist cfg task baseNodes baseEdges events).solution = none) ∧
    (∀ (geoDist : GeoPoint → GeoPoint → ℚ) (cfg : Config) (req1 req2 : PlanRequest)
      (l1 l2 : List TaskInput) (t : TaskInput),
      req1.tasks = some (l1 ++ t :: l2) → req2.tasks = some (l1 ++ l2) →
      req2.nodes = req1.nodes → req2.edges = req1.edges → req2.events = req1.events →
      (∀ t2 ∈ l1 ++ t :: l2, ∃ s, t2.taskId = some s ∧ s ≠ "") →
      l1 ++ l2 ≠ [] →
      planScenario geoDist cfg req1 =
        l1.map (fun t2 => planOneTask geoDist cfg (planTaskOfInput t2) req1.nodes
          req1.edges req1.events) ++
        planOneTask geoDist cfg (planTaskOfInput t) req1.nodes req1.edges req1.events ::
        l2.map (fun t2 => planOneTask geoDist cfg (planTaskOfInput t2) req1.nodes
          req1.edges req1.events) ∧
      planScenario geoDist cfg req2 =
        l1.map (fun t2 => planOneTask geoDist cfg (planTaskOfInput t2) req1.nodes
          req1.edges req1.events) ++
        l2.map (fun t2 => planOneTask geoDist cfg (planTaskOfInput t2) req1.nodes
          req1.edges req1.events)) := by
  refine ⟨fun _ _ _ => rfl, ?_, ?_, ?_⟩
  · intro geoDist cfg task baseNodes baseEdges events h
    unfold planOneTask
    rcases h with h | h | h | h
    · rw [h]
    · rw [h]
      cases hd : task.destinationId with
      | none => rfl
      | some did =>
        dsimp only
        rw [if_pos (Or.inl rfl)]
    · rw [h]
      cases ho : task.originId <;> rfl
    · rw [h]
      cases ho : task.originId with
      | none => rfl
      | some oid =>
        dsimp only
        rw [if_pos (Or.inr rfl)]
  · intro geoDist cfg task baseNodes baseEdges events oid did ho hd hun
    unfold planOneTask
    rw [ho, hd]
    dsimp only
    by_cases he : oid = "" ∨ did = ""
    · rw [if_pos he]
    · rw [if_neg he]
      exact planAttempts_unknown_endpoint hun _
  · intro geoDist cfg req1 req2 l1 l2 t h1 h2 hn he hev hex hne
    have hb1 : normalizeBatchRequest req1 = (l1 ++ t :: l2).map planTaskOfInput :=
      normalizeBatch_explicit h1 (by simp) hex
    have hb2 : normalizeBatchRequest req2 = (l1 ++ l2).map planTaskOfInput :=
      normalizeBatch_explicit h2 hne
        (fun t2 h2m => hex t2 (by
          rcases List.mem_append.mp h2m with hm | hm
          · exact List.mem_append.mpr (Or.inl hm)
          · exact List.mem_append.mpr (Or.inr (List.mem_cons_of_mem _ hm))))
    constructor
    · show (normalizeBatchRequest req1).map _ = _
      rw [hb1]
      simp only [List.map_append, List.map_cons, List.map_map]
      rfl
    · show (normalizeBatchRequest req2).map _ = _
      rw [hb2, hn, he, hev]
      simp only [List.map_append, List.map_map]
      rfl

/-- Witness for the amended C7: a concrete malformed task gets a `null`
solution. -/
theorem batch_malformed_isolation_amended_witness :
    ((⟨"t", none, some "B", none⟩ : PlanTask).originId = none ∨
      (⟨"t", none, some "B", none⟩ : PlanTask).originId = some "" ∨
      (⟨"t", none, some "B", none⟩ : PlanTask).destinationId = none ∨
      (⟨"t", none, some "B", none⟩ : PlanTask).destinationId = some "") ∧
    (planOneTask testDist defaultConfig ⟨"t", none, some "B", none⟩
      (some [testNodeA, testNodeB]) (some [testEdgeAB]) []).solution = none :=
  ⟨Or.inl rfl, batch_malformed_isolation_amended.2.1 testDist defaultConfig
    ⟨"t", none, some "B", none⟩ (some [testNodeA, testNodeB]) (some [testEdgeAB])
    [] (Or.inl rfl)⟩

lemma mkNodeMap_append (l : List Node) (n : Node) (i : String) :
    mkNodeMap (l ++ [n]) i = if i = n.id then some n else mkNodeMap l i := by
  unfold mkNodeMap
  rw [List.foldl_append]
  rfl

lemma dedupKeys_append (l : List Node) (n : Node) :
    dedupKeys (l ++ [n]) = if (dedupKeys l).contains n.id then dedupKeys l
      else dedupKeys l ++ [n.id] := by
  unfold dedupKeys
  rw [List.foldl_append]
  rfl

lemma mkNodeMap_some_contains :
    ∀ (nodes : List Node) (i : String) (n : Node), mkNodeMap nodes i = some n →
      (dedupKeys nodes).contains i = true := by
  intro nodes
  induction nodes using List.reverseRecOn with
  | nil => intro i n h; exact Option.noConfusion h
  | append_singleton l a ih =>
    intro i n h
    rw [mkNodeMap_append] at h
    rw [dedupKeys_append]
    by_cases hi : i = a.id
    · subst hi
      by_cases hc : (dedupKeys l).contains a.id = true
      · rw [if_pos hc]; exact hc
      · rw [if_neg hc]; simp
    · rw [if_neg hi] at h
      have hc := ih i n h
      by_cases hc2 : (dedupKeys l).contains a.id = true
      · rw [if_pos hc2]; exact hc
      · rw [if_neg hc2]
        simp at hc ⊢
        exact Or.inl hc

lemma dedupKeys_nodup : ∀ nodes : List Node, (dedupKeys nodes).Nodup := by
  intro nodes
  induction nodes using List.reverseRecOn with
  | nil => exact List.nodup_nil
  | append_singleton l a ih =>
    rw [dedupKeys_append]
    by_cases hc : (dedupKeys l).contains a.id = true
    · rw [if_pos hc]; exact ih
    · rw [if_neg hc]
      refine List.Nodup.append ih (List.nodup_singleton _) ?_
      intro x hx hx2
      rw [List.mem_singleton] at hx2
      subst hx2
      exact hc (by simpa using hx)

/-- Every built graph is well-formed. -/
lemma buildGraph_wf (geoDist : GeoPoint → GeoPoint → ℚ) (nodes : List Node)
    (edges : List Edge) (cfg : Config) (objective : String)
    (events : List DisruptionEvent) :
    GraphWF (buildGraph geoDist nodes edges cfg objective events) := by
  intro u e he
  rcases (mem_buildGraph_adj _ _ _ _ _ _ _ _).mp he with
    ⟨e0, _, fn, tn, hf, ht, hfrom, _, hentry⟩
  constructor
  · rw [show (buildGraph geoDist nodes edges cfg objective events).nodeIds =
      dedupKeys nodes from rfl]
    rw [← hfrom]
    exact mkNodeMap_some_contains nodes _ fn hf
  · rw [show (buildGraph geoDist nodes edges cfg objective events).nodeIds =
      dedupKeys nodes from rfl]
    rw [hentry]
    exact mkNodeMap_some_contains nodes _ tn ht

lemma dijkstraKeys_contains_origin (gr : Graph) (o : String) :
    (dijkstraKeys gr o).contains o = true := by
  unfold dijkstraKeys
  by_cases h : gr.nodeIds.contains o = true
  · rw [if_pos h]; exact h
  · rw [if_neg h]; simp

lemma dijkstraKeys_contains_of (gr : Graph) (o i : String)
    (h : gr.nodeIds.contains i = true) : (dijkstraKeys gr o).contains i = true := by
  unfold dijkstraKeys
  by_cases h2 : gr.nodeIds.contains o = true
  · rw [if_pos h2]; exact h
  · rw [if_neg h2]
    simp at h ⊢
    exact Or.inl h

lemma dijkstraKeys_nodup {gr : Graph} (hg : gr.nodeIds.Nodup) (o : String) :
    (dijkstraKeys gr o).Nodup := by
  unfold dijkstraKeys
  by_cases h : gr.nodeIds.contains o = true
  · rw [if_pos h]; exact hg
  · rw [if_neg h]
    refine List.Nodup.append hg (List.nodup_singleton _) ?_
    intro x hx hx2
    rw [List.mem_singleton] at hx2
    subst hx2
    exact h (by simpa using hx)

lemma isPath_append_singleton {adj : String → List AdjEntry} {o v : String}
    {q : List Step} {st : Step} :
    IsPath adj o v (q ++ [st]) ↔
      IsPath adj o st.«from» q ∧ st.edge ∈ adj st.«from» ∧ st.edge.«to» = v := by
  induction q generalizing o with
  | nil =>
    simp only [List.nil_append, IsPath]
    constructor
    · rintro ⟨h1, h2, h3⟩
      exact ⟨h1.symm, h1 ▸ h2, h3⟩
    · rintro ⟨h1, h2, h3⟩
      exact ⟨h1.symm, h1 ▸ h2, h3⟩
  | cons st2 rest ih =>
    simp only [List.cons_append, IsPath]
    constructor
    · rintro ⟨h1, h2, h3⟩
      rcases ih.mp h3 with ⟨k1, k2, k3⟩
      exact ⟨⟨h1, h2, k1⟩, k2, k3⟩
    · rintro ⟨⟨h1, h2, h3⟩, k2, k3⟩
      exact ⟨h1, h2, ih.mpr ⟨h3, k2, k3⟩⟩

lemma pathWeight_append (p q : List Step) :
    pathWeight (p ++ q) = pathWeight p + pathWeight q := by
  unfold pathWeight
  rw [List.map_append, List.sum_append]

lemma pathWeight_nonneg {adj : String → List AdjEntry}
    (hw : ∀ u e, e ∈ adj u → 0 ≤ e.weight) :
    ∀ {o d : String} {p : List Step}, IsPath adj o d p → 0 ≤ pathWeight p := by
  intro o d p
  induction p generalizing o with
  | nil => intro _; simp [pathWeight]
  | cons st rest ih =>
    rintro ⟨h1, h2, h3⟩
    have h4 : pathWeight (st :: rest) = st.edge.weight + pathWeight rest := by
      simp [pathWeight]
    rw [h4]
    exact add_nonneg (hw o st.edge (h1 ▸ h2)) (ih h3)

lemma dijkstraKeys_contains_iff (gr : Graph) (o i : String) :
    (dijkstraKeys gr o).contains i = true ↔
      (i = o ∨ gr.nodeIds.contains i = true) := by
  unfold dijkstraKeys
  by_cases h : gr.nodeIds.contains o = true
  · rw [if_pos h]
    constructor
    · exact fun h2 => Or.inr h2
    · rintro (rfl | h2)
      · exact h
      · exact h2
  · rw [if_neg h]
    constructor
    · intro h2
      simp at h2
      rcases h2 with h2 | h2
      · exact Or.inr (by simpa using h2)
      · exact Or.inl h2
    · intro h2
      simp
      rcases h2 with rfl | h2
      · exact Or.inr rfl
      · exact Or.inl (by simpa using h2)

/-- The initial solver state satisfies the invariant. -/
lemma DInv_init (gr : Graph) (o : String) :
    DInv gr o (dijkstraKeys gr o)
      ⟨initDist gr o, fun _ => none, fun _ => false⟩ := by
  refine ⟨?_, ?_, ?_, ?_, ?_, ?_, ?_, ?_, ?_, rfl, ?_, ?_⟩
  · intro i
    show (initDist gr o i).isSome = true ↔ _
    unfold initDist
    rw [dijkstraKeys_contains_iff]
    by_cases hio : i = o
    · rw [if_pos hio]
      simp [hio]
    · rw [if_neg hio]
      by_cases hc : gr.nodeIds.contains i = true
      · rw [if_pos hc]
        simp at hc ⊢
        exact Or.inr hc
      · rw [if_neg hc]
        simp at hc
        simp [hio, hc]
  · intro i x h
    replace h : initDist gr o i = some (x : WithTop ℚ) := h
    unfold initDist at h
    by_cases hio : i = o
    · rw [if_pos hio] at h
      injection h with h
      have : x = 0 := by
        have h0 : ((0 : ℚ) : WithTop ℚ) = ((x : ℚ) : WithTop ℚ) := h
        exact_mod_cast h0.symm
      rw [this]
    · rw [if_neg hio] at h
      by_cases hc : gr.nodeIds.contains i = true
      · rw [if_pos hc] at h
        injection h with h
        exact absurd h.symm (WithTop.coe_ne_top)
      · rw [if_neg hc] at h
        exact Option.noConfusion h
  · show initDist gr o o = some 0
    unfold initDist
    rw [if_pos rfl]
  · intro i x h
    replace h : initDist gr o i = some (x : WithTop ℚ) := h
    unfold initDist at h
    by_cases hio : i = o
    · rw [if_pos hio] at h
      injection h with h
      have hx : x = 0 := by
        have h0 : ((0 : ℚ) : WithTop ℚ) = ((x : ℚ) : WithTop ℚ) := h
        exact_mod_cast h0.symm
      subst hio
      exact ⟨[], rfl, by rw [hx]; rfl⟩
    · rw [if_neg hio] at h
      by_cases hc : gr.nodeIds.contains i = true
      · rw [if_pos hc] at h
        injection h with h
        exact absurd h.symm (WithTop.coe_ne_top)
      · rw [if_neg hc] at h
        exact Option.noConfusion h
  · intro i h; exact absurd h (by simp)
  · intro i h; exact absurd h (by simp)
  · intro i h; exact absurd h (by simp)
  · intro u h; exact absurd h (by simp)
  · intro v st h; exact Option.noConfusion h
  · intro v x h hvo
    replace h : initDist gr o v = some (x : WithTop ℚ) := h
    unfold initDist at h
    rw [if_neg hvo] at h
    by_cases hc : gr.nodeIds.contains v = true
    · rw [if_pos hc] at h
      injection h with h
      exact absurd h.symm (WithTop.coe_ne_top)
    · rw [if_neg hc] at h
      exact Option.noConfusion h
  · exact ⟨[], List.nodup_nil, fun i => by simp, fun v st h => Option.noConfusion h⟩

/-- Key optimality step: when the scan pops `u`, the tentative distance of `u`
is a lower bound on the weight of every path from the origin to any still
unvisited node.  Proved by reverse induction on the path, using that either
the path stays inside the visited region (then relaxation has pushed a finite
distance to its endpoint) or it first exits at an unvisited node. -/
lemma pop_optimal {gr : Graph} {o : String} {keys : List String} {s : DijkstraState}
    {u : String}
    (inv : DInv gr o keys s) (wf : GraphWF gr)
    (nonneg : ∀ u2 e, e ∈ gr.adj u2 → 0 ≤ e.weight)
    (hko : keys.contains o = true)
    (hkeys : ∀ i, gr.nodeIds.contains i = true → keys.contains i = true)
    (hsel : selectMin keys s = some u) (du : ℚ)
    (hdu : s.dist u = some (du : WithTop ℚ)) :
    ∀ q v, IsPath gr.adj o v q → s.visited v = false → du ≤ pathWeight q := by
  rcases selectMin_some_spec hsel with ⟨humem, huv, du', hdu', hlt, hmin⟩
  have hdu'' : du' = (du : WithTop ℚ) := by
    rw [hdu] at hdu'; injection hdu' with h; exact h.symm
  subst hdu''
  intro q
  induction q using List.reverseRecOn with
  | nil =>
    intro v hv hvis
    have hov : o = v := hv
    subst hov
    have h0 := hmin o (by simpa using hko) hvis 0 inv.dist_origin
    have : du ≤ (0 : ℚ) := by exact_mod_cast h0
    simpa [pathWeight] using this
  | append_singleton q' st ih =>
    intro v hv hvis
    rcases isPath_append_singleton.mp hv with ⟨hq', hmem, hto⟩
    have hwnn : 0 ≤ st.edge.weight := nonneg _ _ hmem
    have hwq : pathWeight (q' ++ [st]) = pathWeight q' + st.edge.weight := by
      rw [pathWeight_append]
      simp [pathWeight]
    by_cases hx : s.visited st.«from» = true
    · rcases inv.visited_finite _ hx with ⟨xu, hxu⟩
      rcases inv.relaxed _ hx st.edge hmem xu hxu with ⟨xv, hxv, hle⟩
      have hlb := inv.visited_lb _ hx xu hxu q' hq'
      have hvk : keys.contains v = true := by
        apply hkeys
        rw [← hto]
        exact (wf _ _ hmem).2
      have hminv := hmin v (by simpa using hvk) hvis _ (hto ▸ hxv)
      have hduxv : du ≤ xv := by exact_mod_cast hminv
      rw [hwq]
      calc du ≤ xv := hduxv
        _ ≤ xu + st.edge.weight := hle
        _ ≤ pathWeight q' + st.edge.weight := by linarith
    · have huns : s.visited st.«from» = false := by
        cases h2 : s.visited st.«from»
        · rfl
        · exact absurd h2 hx
      have := ih st.«from» hq' huns
      rw [hwq]
      linarith

/-- Marking the popped node visited establishes the relaxation invariant with
an empty processed prefix (the settled lower bound coming from
`pop_optimal`). -/
lemma mark_RInv {gr : Graph} {o : String} {keys : List String} {s : DijkstraState}
    {u : String}
    (inv : DInv gr o keys s) (wf : GraphWF gr)
    (nonneg : ∀ u2 e, e ∈ gr.adj u2 → 0 ≤ e.weight)
    (hko : keys.contains o = true)
    (hkeys : ∀ i, gr.nodeIds.contains i = true → keys.contains i = true)
    (hsel : selectMin keys s = some u) (du : ℚ)
    (hdu : s.dist u = some (du : WithTop ℚ)) :
    RInv gr o keys u du [] (markVisited u s) := by
  rcases selectMin_some_spec hsel with ⟨humem, huv, _, _, _, _⟩
  refine ⟨inv.dist_keys, inv.dist_nonneg, inv.dist_origin, inv.reach, ?_, ?_, ?_, ?_,
    inv.prev_origin, inv.prev_some, ?_, hdu, ?_, ?_, ?_⟩
  · intro i hi
    by_cases h : i = u
    · subst h; simpa using humem
    · replace hi : s.visited i = true := by simpa [markVisited, h] using hi
      exact inv.visited_keys i hi
  · intro i hi
    by_cases h : i = u
    · subst h; exact ⟨du, hdu⟩
    · replace hi : s.visited i = true := by simpa [markVisited, h] using hi
      exact inv.visited_finite i hi
  · intro i hi x hx q hq
    by_cases h : i = u
    · subst h
      replace hx : s.dist i = some (x : WithTop ℚ) := hx
      have hxdu : x = du := by
        rw [hdu] at hx
        injection hx with hx
        exact_mod_cast hx.symm
      subst hxdu
      exact pop_optimal inv wf nonneg hko hkeys hsel x hdu q i hq huv
    · replace hi : s.visited i = true := by simpa [markVisited, h] using hi
      exact inv.visited_lb i hi x hx q hq
  · intro v st h
    rcases inv.prev_spec v st h with ⟨a, b, c, d⟩
    refine ⟨a, b, ?_, d⟩
    show (if st.«from» = u then true else s.visited st.«from») = true
    by_cases h2 : st.«from» = u
    · simp [h2]
    · simp [h2, c]
  · rcases inv.order with ⟨vl, hnd, hiff, hprev⟩
    have hunotin : u ∉ vl := fun hmem => by
      have := (hiff u).mpr hmem
      rw [huv] at this
      exact Bool.noConfusion this
    refine ⟨vl ++ [u], ?_, ?_, ?_⟩
    · simp [List.nodup_append, hnd, hunotin]
    · intro i
      show (if i = u then true else s.visited i) = true ↔ _
      by_cases h : i = u
      · subst h; simp
      · rw [if_neg h, hiff]
        simp [h]
    · intro v st h
      rcases hprev v st h with ⟨hf, hlt⟩
      refine ⟨List.mem_append_left _ hf, ?_⟩
      intro hvmem
      rcases List.mem_append.mp hvmem with hv | hv
      · rw [List.indexOf_append_of_mem hf, List.indexOf_append_of_mem hv]
        exact hlt hv
      · have hvu : v = u := by simpa using hv
        subst hvu
        rw [List.indexOf_append_of_mem hf, List.indexOf_append_of_not_mem hunotin]
        have := List.indexOf_lt_length.mpr hf
        simp [List.indexOf_cons_self]
        omega
  · show (if u = u then true else s.visited u) = true
    simp
  · intro x hx hxu e he xu hdx
    replace hx : s.visited x = true := by simpa [markVisited, hxu] using hx
    exact inv.relaxed x hx e he xu hdx
  · intro e he
    exact absurd he (List.not_mem_nil e)

/-- Characterization of one relaxation step when both distances are present. -/
lemma relaxStep_eq (u : String) (s : DijkstraState) (e : AdjEntry) (du dv : WithTop ℚ)
    (hdu : s.dist u = some du) (hdv : s.dist e.«to» = some dv) :
    relaxStep u s e =
      if du + (e.weight : WithTop ℚ) < dv then
        { s with
          dist := fun i => if i = e.«to» then some (du + (e.weight : WithTop ℚ))
            else s.dist i,
          prev := fun i => if i = e.«to» then some ⟨u, e⟩ else s.prev i }
      else s := by
  unfold relaxStep
  rw [hdu, hdv]

/-- Relaxing one more edge out of `u` preserves the relaxation invariant and
extends the processed prefix. -/
lemma relax_RInv {gr : Graph} {o : String} {keys : List String} {u : String} {du : ℚ}
    {done : List AdjEntry} {s : DijkstraState}
    (wf : GraphWF gr)
    (nonneg : ∀ u2 e, e ∈ gr.adj u2 → 0 ≤ e.weight)
    (hkeys : ∀ i, gr.nodeIds.contains i = true → keys.contains i = true)
    (rinv : RInv gr o keys u du done s) {e : AdjEntry} (he : e ∈ gr.adj u) :
    RInv gr o keys u du (done ++ [e]) (relaxStep u s e) := by
  have hdu := rinv.dist_u
  have hcto : keys.contains e.«to» = true := hkeys _ (wf _ _ he).2
  have hnn_du : 0 ≤ du := rinv.dist_nonneg u du hdu
  have hnn_w : 0 ≤ e.weight := nonneg _ _ he
  cases hdvo : s.dist e.«to» with
  | none =>
    exfalso
    have := (rinv.dist_keys e.«to»).mpr hcto
    rw [hdvo] at this
    simp at this
  | some dv =>
    rw [relaxStep_eq u s e _ dv hdu hdvo]
    have halteq : ((du : WithTop ℚ) + (e.weight : WithTop ℚ)) =
        ((du + e.weight : ℚ) : WithTop ℚ) := (WithTop.coe_add du e.weight).symm
    by_cases halt : (du : WithTop ℚ) + (e.weight : WithTop ℚ) < dv
    · rw [if_pos halt]
      -- the relaxation fires: `e.«to»` gets a strictly smaller finite distance
      have hvto : s.visited e.«to» = false := by
        cases hvt : s.visited e.«to» with
        | false => rfl
        | true =>
          exfalso
          rcases rinv.visited_finite _ hvt with ⟨xv0, hxv0⟩
          have hdvv : dv = ((xv0 : ℚ) : WithTop ℚ) := by
            rw [hdvo] at hxv0
            injection hxv0 with h
          rcases rinv.reach u du hdu with ⟨p, hp, hw⟩
          have hpath : IsPath gr.adj o e.«to» (p ++ [⟨u, e⟩]) :=
            isPath_append_singleton.mpr ⟨hp, he, rfl⟩
          have hlbv := rinv.visited_lb _ hvt xv0 hxv0 (p ++ [⟨u, e⟩]) hpath
          have hwsum : pathWeight (p ++ [⟨u, e⟩]) = du + e.weight := by
            rw [pathWeight_append, hw]
            simp [pathWeight]
          rw [hwsum] at hlbv
          rw [hdvv] at halt
          have hlt2 : du + e.weight < xv0 := by exact_mod_cast halt
          linarith
      have hne_u : e.«to» ≠ u := fun h => by
        rw [h, rinv.visited_u] at hvto
        exact Bool.noConfusion hvto
      have hne_o : e.«to» ≠ o := by
        intro h
        have h0 : s.dist e.«to» = some 0 := by rw [h]; exact rinv.dist_origin
        rw [hdvo] at h0
        injection h0 with h0
        rw [h0] at halt
        have : du + e.weight < 0 := by exact_mod_cast halt
        linarith
      refine ⟨?_, ?_, ?_, ?_, rinv.visited_keys, ?_, ?_, ?_, ?_, ?_, ?_, ?_,
        rinv.visited_u, ?_, ?_⟩
      · intro i
        show (if i = e.«to» then _ else s.dist i).isSome = true ↔ _
        by_cases hi : i = e.«to»
        · subst hi
          rw [if_pos rfl]
          simp
          simpa using hcto
        · rw [if_neg hi]
          exact rinv.dist_keys i
      · intro i x h
        by_cases hi : i = e.«to»
        · subst hi
          replace h : some ((du : WithTop ℚ) + (e.weight : WithTop ℚ)) =
              some ((x : ℚ) : WithTop ℚ) := by
            rw [← h]
            show _ = (if e.«to» = e.«to» then _ else s.dist e.«to»)
            rw [if_pos rfl]
          rw [halteq] at h
          injection h with h
          have hx : x = du + e.weight := by exact_mod_cast h.symm
          rw [hx]
          linarith
        · replace h : s.dist i = some ((x : ℚ) : WithTop ℚ) := by
            rw [← h]
            show _ = (if i = e.«to» then _ else s.dist i)
            rw [if_neg hi]
          exact rinv.dist_nonneg i x h
      · show (if o = e.«to» then _ else s.dist o) = some 0
        rw [if_neg (fun h => hne_o h.symm)]
        exact rinv.dist_origin
      · intro i x h
        by_cases hi : i = e.«to»
        · subst hi
          replace h : some ((du : WithTop ℚ) + (e.weight : WithTop ℚ)) =
              some ((x : ℚ) : WithTop ℚ) := by
            rw [← h]
            show _ = (if e.«to» = e.«to» then _ else s.dist e.«to»)
            rw [if_pos rfl]
          rw [halteq] at h
          injection h with h
          have hx : x = du + e.weight := by exact_mod_cast h.symm
          rcases rinv.reach u du hdu with ⟨p, hp, hw⟩
          refine ⟨p ++ [⟨u, e⟩], isPath_append_singleton.mpr ⟨hp, he, rfl⟩, ?_⟩
          rw [pathWeight_append, hw, hx]
          simp [pathWeight]
        · replace h : s.dist i = some ((x : ℚ) : WithTop ℚ) := by
            rw [← h]
            show _ = (if i = e.«to» then _ else s.dist i)
            rw [if_neg hi]
          exact rinv.reach i x h
      · intro i hi
        replace hi : s.visited i = true := hi
        have hine : i ≠ e.«to» := fun h => by
          rw [h, hvto] at hi
          exact Bool.noConfusion hi
        rcases rinv.visited_finite i hi with ⟨x, hx⟩
        refine ⟨x, ?_⟩
        show (if i = e.«to» then _ else s.dist i) = _
        rw [if_neg hine]
        exact hx
      · intro i hi x hx q hq
        replace hi : s.visited i = true := hi
        have hine : i ≠ e.«to» := fun h => by
          rw [h, hvto] at hi
          exact Bool.noConfusion hi
        replace hx : s.dist i = some ((x : ℚ) : WithTop ℚ) := by
          rw [← hx]
          show _ = (if i = e.«to» then _ else s.dist i)
          rw [if_neg hine]
        exact rinv.visited_lb i hi x hx q hq
      · intro v st h
        by_cases hv : v = e.«to»
        · subst hv
          replace h : some (⟨u, e⟩ : Step) = some st := by
            rw [← h]
            show _ = (if e.«to» = e.«to» then _ else s.prev e.«to»)
            rw [if_pos rfl]
          injection h with h
          subst h
          refine ⟨he, rfl, rinv.visited_u, du, du + e.weight, ?_, ?_, rfl⟩
          · show (if u = e.«to» then _ else s.dist u) = _
            rw [if_neg (fun h2 => hne_u h2.symm)]
            exact hdu
          · show (if e.«to» = e.«to» then _ else s.dist e.«to») = _
            rw [if_pos rfl, halteq]
        · replace h : s.prev v = some st := by
            rw [← h]
            show _ = (if v = e.«to» then _ else s.prev v)
            rw [if_neg hv]
          rcases rinv.prev_spec v st h with ⟨a, b, c, xu, xv, hxu, hxv, heq⟩
          have hfne : st.«from» ≠ e.«to» := fun h2 => by
            rw [h2, hvto] at c
            exact Bool.noConfusion c
          refine ⟨a, b, c, xu, xv, ?_, ?_, heq⟩
          · show (if st.«from» = e.«to» then _ else s.dist st.«from») = _
            rw [if_neg hfne]
            exact hxu
          · show (if v = e.«to» then _ else s.dist v) = _
            rw [if_neg hv]
            exact hxv
      · show (if o = e.«to» then _ else s.prev o) = none
        rw [if_neg (fun h => hne_o h.symm)]
        exact rinv.prev_origin
      · intro v x h hvo
        by_cases hv : v = e.«to»
        · subst hv
          show (if e.«to» = e.«to» then _ else s.prev e.«to»).isSome = true
          rw [if_pos rfl]
          rfl
        · replace h : s.dist v = some ((x : ℚ) : WithTop ℚ) := by
            rw [← h]
            show _ = (if v = e.«to» then _ else s.dist v)
            rw [if_neg hv]
          show (if v = e.«to» then _ else s.prev v).isSome = true
          rw [if_neg hv]
          exact rinv.prev_some v x h hvo
      · rcases rinv.order with ⟨vl, hnd, hiff, hprev⟩
        refine ⟨vl, hnd, hiff, ?_⟩
        intro v st h
        by_cases hv : v = e.«to»
        · subst hv
          replace h : some (⟨u, e⟩ : Step) = some st := by
            rw [← h]
            show _ = (if e.«to» = e.«to» then _ else s.prev e.«to»)
            rw [if_pos rfl]
          injection h with h
          subst h
          refine ⟨(hiff u).mp rinv.visited_u, ?_⟩
          intro hvm
          exfalso
          have := (hiff e.«to»).mpr hvm
          rw [hvto] at this
          exact Bool.noConfusion this
        · replace h : s.prev v = some st := by
            rw [← h]
            show _ = (if v = e.«to» then _ else s.prev v)
            rw [if_neg hv]
          exact hprev v st h
      · show (if u = e.«to» then _ else s.dist u) = _
        rw [if_neg (fun h2 => hne_u h2.symm)]
        exact hdu
      · intro x hx hxu2 e' he' xu hdx
        replace hx : s.visited x = true := hx
        have hxne : x ≠ e.«to» := fun h => by
          rw [h, hvto] at hx
          exact Bool.noConfusion hx
        replace hdx : s.dist x = some ((xu : ℚ) : WithTop ℚ) := by
          rw [← hdx]
          show _ = (if x = e.«to» then _ else s.dist x)
          rw [if_neg hxne]
        rcases rinv.relaxed_old x hx hxu2 e' he' xu hdx with ⟨xv', hxv', hle'⟩
        by_cases hv : e'.«to» = e.«to»
        · refine ⟨du + e.weight, ?_, ?_⟩
          · show (if e'.«to» = e.«to» then _ else s.dist e'.«to») = _
            rw [if_pos hv, halteq]
          · rw [hv] at hxv'
            rw [hdvo] at hxv'
            injection hxv' with hxv'
            rw [hxv'] at halt
            have : du + e.weight < xv' := by exact_mod_cast halt
            linarith
        · refine ⟨xv', ?_, hle'⟩
          show (if e'.«to» = e.«to» then _ else s.dist e'.«to») = _
          rw [if_neg hv]
          exact hxv'
      · intro e' he'
        rcases List.mem_append.mp he' with h' | h'
        · rcases rinv.relaxed_done e' h' with ⟨xv', hxv', hle'⟩
          by_cases hv : e'.«to» = e.«to»
          · refine ⟨du + e.weight, ?_, ?_⟩
            · show (if e'.«to» = e.«to» then _ else s.dist e'.«to») = _
              rw [if_pos hv, halteq]
            · rw [hv] at hxv'
              rw [hdvo] at hxv'
              injection hxv' with hxv'
              rw [hxv'] at halt
              have : du + e.weight < xv' := by exact_mod_cast halt
              linarith
          · refine ⟨xv', ?_, hle'⟩
            show (if e'.«to» = e.«to» then _ else s.dist e'.«to») = _
            rw [if_neg hv]
            exact hxv'
        · have he2 : e' = e := by simpa using h'
          subst he2
          refine ⟨du + e'.weight, ?_, le_refl _⟩
          show (if e'.«to» = e'.«to» then _ else s.dist e'.«to») = _
          rw [if_pos rfl, halteq]
    · rw [if_neg halt]
      -- no update: the existing distance already beats the candidate
      have hdvle : dv ≤ ((du + e.weight : ℚ) : WithTop ℚ) := by
        rw [← halteq]
        exact not_lt.mp halt
      refine ⟨rinv.dist_keys, rinv.dist_nonneg, rinv.dist_origin, rinv.reach,
        rinv.visited_keys, rinv.visited_finite, rinv.visited_lb, rinv.prev_spec,
        rinv.prev_origin, rinv.prev_some, rinv.order, rinv.dist_u, rinv.visited_u,
        rinv.relaxed_old, ?_⟩
      intro e' he'
      rcases List.mem_append.mp he' with h' | h'
      · exact rinv.relaxed_done e' h'
      · have he2 : e' = e := by simpa using h'
        subst he2
        induction dv using WithTop.recTopCoe with
        | top =>
          exfalso
          have := top_le_iff.mp hdvle
          exact WithTop.coe_ne_top this
        | coe xv =>
          refine ⟨xv, hdvo, ?_⟩
          exact_mod_cast hdvle

/-- Folding `relaxStep` over a sublist of `u`'s adjacency list preserves the
relaxation invariant. -/
lemma relax_foldl {gr : Graph} {o : String} {keys : List String} {u : String} {du : ℚ}
    (wf : GraphWF gr)
    (nonneg : ∀ u2 e, e ∈ gr.adj u2 → 0 ≤ e.weight)
    (hkeys : ∀ i, gr.nodeIds.contains i = true → keys.contains i = true) :
    ∀ (l done : List AdjEntry) (s : DijkstraState), (∀ e ∈ l, e ∈ gr.adj u) →
      RInv gr o keys u du done s →
      RInv gr o keys u du (done ++ l) (l.foldl (relaxStep u) s) := by
  intro l
  induction l with
  | nil =>
    intro done s _ rinv
    simpa using rinv
  | cons e l ih =>
    intro done s hmem rinv
    have h1 := relax_RInv wf nonneg hkeys rinv (hmem e (List.mem_cons_self e l))
    have h2 := ih (done ++ [e]) (relaxStep u s e)
      (fun e' he' => hmem e' (List.mem_cons_of_mem _ he')) h1
    simpa [List.append_assoc] using h2

/-- Once every outgoing edge of the popped node is relaxed, the full loop
invariant is restored. -/
lemma RInv_final {gr : Graph} {o : String} {keys : List String} {u : String} {du : ℚ}
    {s : DijkstraState} (rinv : RInv gr o keys u du (gr.adj u) s) :
    DInv gr o keys s := by
  refine ⟨rinv.dist_keys, rinv.dist_nonneg, rinv.dist_origin, rinv.reach,
    rinv.visited_keys, rinv.visited_finite, rinv.visited_lb, ?_, rinv.prev_spec,
    rinv.prev_origin, rinv.prev_some, rinv.order⟩
  intro x hx e he xu hdx
  by_cases hxu : x = u
  · subst hxu
    have hxdu : xu = du := by
      rw [rinv.dist_u] at hdx
      injection hdx with h
      exact_mod_cast h.symm
    rcases rinv.relaxed_done e he with ⟨xv, h1, h2⟩
    exact ⟨xv, h1, by rw [hxdu]; exact h2⟩
  · exact rinv.relaxed_old x hx hxu e he xu hdx

/-- One whole iteration of the while-loop body (mark the popped node, relax
its adjacency list) preserves the loop invariant. -/
lemma DInv_step {gr : Graph} {o : String} {keys : List String} {s : DijkstraState}
    {u : String}
    (inv : DInv gr o keys s) (wf : GraphWF gr)
    (nonneg : ∀ u2 e, e ∈ gr.adj u2 → 0 ≤ e.weight)
    (hko : keys.contains o = true)
    (hkeys : ∀ i, gr.nodeIds.contains i = true → keys.contains i = true)
    (hsel : selectMin keys s = some u) :
    DInv gr o keys ((gr.adj u).foldl (relaxStep u) (markVisited u s)) := by
  rcases selectMin_some_spec hsel with ⟨_, _, du', hdu', hlt, _⟩
  obtain ⟨du, rfl⟩ : ∃ du : ℚ, du' = ((du : ℚ) : WithTop ℚ) := by
    rcases WithTop.ne_top_iff_exists.mp (ne_top_of_lt hlt) with ⟨du, h⟩
    exact ⟨du, h.symm⟩
  have h1 := mark_RInv inv wf nonneg hko hkeys hsel du hdu'
  have h2 := relax_foldl wf nonneg hkeys (gr.adj u) [] _ (fun e he => he) h1
  exact RInv_final (by simpa using h2)

lemma relaxStep_visited (u : String) (s : DijkstraState) (e : AdjEntry) :
    (relaxStep u s e).visited = s.visited := by
  unfold relaxStep
  split
  · rfl
  · split
    · rfl
    · dsimp only
      split <;> rfl

lemma relax_foldl_visited (u : String) :
    ∀ (l : List AdjEntry) (s : DijkstraState),
      (l.foldl (relaxStep u) s).visited = s.visited := by
  intro l
  induction l with
  | nil => intro s; rfl
  | cons e l ih =>
    intro s
    rw [List.foldl_cons, ih, relaxStep_visited]

/-- Marking an unvisited key strictly decreases the number of unvisited keys. -/
lemma mark_count_lt {keys : List String} {s : DijkstraState} {u : String}
    (hnd : keys.Nodup) (hu : u ∈ keys) (hv : s.visited u = false) :
    unvisitedCount keys (markVisited u s) < unvisitedCount keys s := by
  unfold unvisitedCount
  induction keys with
  | nil => exact absurd hu (List.not_mem_nil u)
  | cons a rest ih =>
    rcases List.nodup_cons.mp hnd with ⟨hanotin, hndr⟩
    by_cases hau : a = u
    · subst hau
      have hfil : rest.filter (fun i => (markVisited a s).visited i = false) =
          rest.filter (fun i => s.visited i = false) := by
        apply List.filter_congr
        intro i hi
        have hia : i ≠ a := fun h => hanotin (h ▸ hi)
        show decide ((markVisited a s).visited i = false) = _
        simp [markVisited, hia]
      rw [List.filter_cons, List.filter_cons]
      have h1 : (decide ((markVisited a s).visited a = false)) = false := by
        simp [markVisited]
      have h2 : (decide (s.visited a = false)) = true := by simp [hv]
      rw [h1, h2, hfil]
      simp
    · have hur : u ∈ rest := by
        rcases List.mem_cons.mp hu with h | h
        · exact absurd h.symm hau
        · exact h
      have hlt := ih hndr hur
      simp only [List.filter_cons]
      have hsame : (decide ((markVisited u s).visited a = false)) =
          (decide (s.visited a = false)) := by
        simp [markVisited, hau]
      rw [hsame]
      by_cases hb : s.visited a = false
      · rw [if_pos (by simp [hb]), if_pos (by simp [hb])]
        simp only [List.length_cons]
        omega
      · rw [if_neg (by simpa using hb), if_neg (by simpa using hb)]
        exact hlt

/-- Running the loop with enough fuel from an invariant state lands in an
invariant state in which the scan either fails or pops the destination. -/
lemma dijkstraLoop_result {gr : Graph} {o : String} {keys : List String} (d : String)
    (wf : GraphWF gr)
    (nonneg : ∀ u2 e, e ∈ gr.adj u2 → 0 ≤ e.weight)
    (hko : keys.contains o = true)
    (hkeys : ∀ i, gr.nodeIds.contains i = true → keys.contains i = true)
    (hnd : keys.Nodup) :
    ∀ (fuel : Nat) (s : DijkstraState), DInv gr o keys s →
      unvisitedCount keys s < fuel →
      DInv gr o keys (dijkstraLoop gr keys d fuel s) ∧
      (selectMin keys (dijkstraLoop gr keys d fuel s) = none ∨
       selectMin keys (dijkstraLoop gr keys d fuel s) = some d) := by
  intro fuel
  induction fuel with
  | zero =>
    intro s _ hcount
    exact absurd hcount (Nat.not_lt_zero _)
  | succ f ih =>
    intro s inv hcount
    rw [dijkstraLoop]
    cases hsel : selectMin keys s with
    | none => exact ⟨inv, Or.inl hsel⟩
    | some u =>
      dsimp only
      by_cases hud : u = d
      · rw [if_pos hud]
        exact ⟨inv, Or.inr (hud ▸ hsel)⟩
      · rw [if_neg hud]
        rcases selectMin_some_spec hsel with ⟨humem, huv, _⟩
        have inv2 := DInv_step inv wf nonneg hko hkeys hsel
        have hcount2 : unvisitedCount keys
            ((gr.adj u).foldl (relaxStep u) (markVisited u s)) < f := by
          have hc1 : unvisitedCount keys
              ((gr.adj u).foldl (relaxStep u) (markVisited u s)) =
              unvisitedCount keys (markVisited u s) := by
            unfold unvisitedCount
            rw [relax_foldl_visited]
          rw [hc1]
          have := mark_count_lt hnd humem huv
          omega
        exact ih _ inv2 hcount2

lemma nodup_subset_length {vl keys : List String} (hnd : vl.Nodup)
    (hsub : ∀ i ∈ vl, i ∈ keys) : vl.length ≤ keys.length := by
  calc vl.length = vl.toFinset.card := (List.toFinset_card_of_nodup hnd).symm
    _ ≤ keys.toFinset.card := by
        apply Finset.card_le_card
        intro a ha
        rw [List.mem_toFinset] at ha ⊢
        exact hsub a ha
    _ ≤ keys.length := List.toFinset_card_le keys

/-- Path reconstruction: in an invariant state, walking the `prev` chain from
any node with a finite distance produces a path from the origin of exactly
that weight, provided the walk has enough fuel.  Strong induction on the
position of the predecessor in the visiting order. -/
lemma buildPath_spec {gr : Graph} {o : String} {keys : List String} {s : DijkstraState}
    (inv : DInv gr o keys s)
    {vl : List String} (hiff : ∀ i, s.visited i = true ↔ i ∈ vl)
    (hprev : ∀ v st, s.prev v = some st → st.«from» ∈ vl ∧
      (v ∈ vl → vl.indexOf st.«from» < vl.indexOf v)) :
    ∀ (k : Nat) (v : String) (x : ℚ), s.dist v = some ((x : ℚ) : WithTop ℚ) →
      (v = o ∨ ∃ st, s.prev v = some st ∧ vl.indexOf st.«from» < k) →
      ∃ pth, IsPath gr.adj o v pth ∧ pathWeight pth = x ∧
        ∀ (fuel : Nat) (acc : List Step), k + 1 ≤ fuel →
          buildPathAux s.prev fuel v acc = pth ++ acc := by
  intro k
  induction k using Nat.strong_induction_on with
  | _ k ih =>
    intro v x hx hcase
    rcases hcase with rfl | ⟨st, hpv, hklt⟩
    · have hx0 : x = 0 := by
        rw [inv.dist_origin] at hx
        injection hx with h
        exact_mod_cast h.symm
      refine ⟨[], rfl, by simp [pathWeight, hx0], ?_⟩
      intro fuel acc hfuel
      cases fuel with
      | zero => omega
      | succ f =>
        rw [buildPathAux, inv.prev_origin]
        rfl
    · rcases inv.prev_spec v st hpv with ⟨hmem, hto, hvisf, xu, xv, hxu, hxv, heq⟩
      have hxxv : x = xv := by
        rw [hxv] at hx
        injection hx with h
        exact_mod_cast h.symm
      have hcase' : st.«from» = o ∨ ∃ st', s.prev st.«from» = some st' ∧
          vl.indexOf st'.«from» < vl.indexOf st.«from» := by
        by_cases h : st.«from» = o
        · exact Or.inl h
        · have hps := inv.prev_some st.«from» xu hxu h
          rcases Option.isSome_iff_exists.mp hps with ⟨st', hst'⟩
          rcases hprev st.«from» st' hst' with ⟨_, hlt2⟩
          have hfmem : st.«from» ∈ vl := (hiff _).mp hvisf
          exact Or.inr ⟨st', hst', hlt2 hfmem⟩
      rcases ih (vl.indexOf st.«from») hklt st.«from» xu hxu hcase' with
        ⟨pu, hpu, hwu, hbuild⟩
      refine ⟨pu ++ [st], isPath_append_singleton.mpr ⟨hpu, hmem, hto⟩, ?_, ?_⟩
      · rw [pathWeight_append, hwu]
        simp only [pathWeight, List.map_cons, List.map_nil, List.sum_cons,
          List.sum_nil, add_zero]
        rw [hxxv, heq]
      · intro fuel acc hfuel
        cases fuel with
        | zero => omega
        | succ f =>
          rw [buildPathAux, hpv]
          show buildPathAux s.prev f st.«from» (st :: acc) = (pu ++ [st]) ++ acc
          rw [hbuild f (st :: acc) (by omega)]
          simp

/-- Unfolding of `dijkstra` through its `let` bindings. -/
lemma dijkstra_eq (g : Graph) (o d : String) :
    dijkstra g o d =
      match (dijkstraLoop g (dijkstraKeys g o) d ((dijkstraKeys g o).length + 1)
          ⟨initDist g o, fun _ => none, fun _ => false⟩).prev d with
      | none => none
      | some _ => some (buildPathAux
          (dijkstraLoop g (dijkstraKeys g o) d ((dijkstraKeys g o).length + 1)
            ⟨initDist g o, fun _ => none, fun _ => false⟩).prev
          ((dijkstraKeys g o).length + 1) d []) := rfl

/-- Full correctness of the embedded Dijkstra solver on graphs with
non-negative weights and duplicate-free node key lists: a returned path is a
real, non-empty origin-to-destination path of minimum weight, and a `none`
answer means no such path exists at all (when origin and destination
differ). -/
lemma dijkstra_correct {gr : Graph} (hnd : gr.nodeIds.Nodup) (wf : GraphWF gr)
    (nonneg : ∀ u e, e ∈ gr.adj u → 0 ≤ e.weight) (o d : String) :
    (∀ p, dijkstra gr o d = some p →
      IsPath gr.adj o d p ∧ p ≠ [] ∧
        ∀ q, IsPath gr.adj o d q → pathWeight p ≤ pathWeight q) ∧
    (dijkstra gr o d = none → o ≠ d → ∀ q, ¬ IsPath gr.adj o d q) := by
  have hko := dijkstraKeys_contains_origin gr o
  have hkeys : ∀ i, gr.nodeIds.contains i = true →
      (dijkstraKeys gr o).contains i = true :=
    fun i h => dijkstraKeys_contains_of gr o i h
  have hndk := dijkstraKeys_nodup hnd o
  have hcount : unvisitedCount (dijkstraKeys gr o)
      ⟨initDist gr o, fun _ => none, fun _ => false⟩ <
      (dijkstraKeys gr o).length + 1 := by
    unfold unvisitedCount
    exact Nat.lt_succ_of_le (List.length_filter_le _ _)
  obtain ⟨invF, hbreak⟩ := dijkstraLoop_result d wf nonneg hko hkeys hndk
    ((dijkstraKeys gr o).length + 1) ⟨initDist gr o, fun _ => none, fun _ => false⟩
    (DInv_init gr o) hcount
  rw [dijkstra_eq gr o d]
  obtain ⟨s, hs⟩ : ∃ s, dijkstraLoop gr (dijkstraKeys gr o) d
      ((dijkstraKeys gr o).length + 1)
      ⟨initDist gr o, fun _ => none, fun _ => false⟩ = s := ⟨_, rfl⟩
  rw [hs] at invF hbreak ⊢
  constructor
  · cases hprevd : s.prev d with
    | none =>
      intro p hp
      exact Option.noConfusion (show (none : Option (List Step)) = some p from hp)
    | some st₀ =>
      intro p hp
      replace hp : some (buildPathAux s.prev ((dijkstraKeys gr o).length + 1) d []) =
          some p := hp
      injection hp with hp
      have hod : o ≠ d := by
        intro h
        rw [← h, invF.prev_origin] at hprevd
        exact Option.noConfusion hprevd
      rcases invF.prev_spec d st₀ hprevd with
        ⟨hmem0, hto0, hvis0, xu0, xd, hxu0, hxd, heq0⟩
      rcases invF.order with ⟨vl, hvnd, hiff, hprevord⟩
      have hfmem : st₀.«from» ∈ vl := (hprevord d st₀ hprevd).1
      have hvl_sub : ∀ i ∈ vl, i ∈ dijkstraKeys gr o := by
        intro i hi
        have := invF.visited_keys i ((hiff i).mpr hi)
        simpa using this
      have hvllen : vl.length ≤ (dijkstraKeys gr o).length :=
        nodup_subset_length hvnd hvl_sub
      have hidx : vl.indexOf st₀.«from» < vl.length := List.indexOf_lt_length.mpr hfmem
      obtain ⟨pth, hpath, hweight, hbuild⟩ := buildPath_spec invF hiff hprevord
        (vl.indexOf st₀.«from» + 1) d xd hxd (Or.inr ⟨st₀, hprevd, by omega⟩)
      have hpeq : p = pth := by
        have h2 := hbuild ((dijkstraKeys gr o).length + 1) [] (by omega)
        rw [h2] at hp
        simpa using hp.symm
      subst hpeq
      refine ⟨hpath, ?_, ?_⟩
      · intro hnil
        rw [hnil] at hpath
        exact hod hpath
      · intro q hq
        rw [hweight]
        rcases hbreak with hsel | hsel
        · have hcd : (dijkstraKeys gr o).contains d = true := by
            apply hkeys
            rw [← hto0]
            exact (wf _ _ hmem0).2
          by_cases hvd : s.visited d = true
          · exact invF.visited_lb d hvd xd hxd q hq
          · exfalso
            have hvdf : s.visited d = false := by
              cases hv2 : s.visited d
              · rfl
              · exact absurd hv2 hvd
            have := selectMin_none_spec hsel d (by simpa using hcd) hvdf _ hxd
            exact WithTop.coe_ne_top this
        · rcases selectMin_some_spec hsel with ⟨_, hdv, _, _, _, _⟩
          exact pop_optimal invF wf nonneg hko hkeys hsel xd hxd q d hq hdv
  · cases hprevd : s.prev d with
    | some st₀ =>
      intro hnone
      exact Option.noConfusion (show (some (buildPathAux s.prev
        ((dijkstraKeys gr o).length + 1) d []) : Option (List Step)) = none from hnone)
    | none =>
      intro _ hod2 q hq
      rcases hbreak with hsel | hsel
      · have hfin : ∀ (q2 : List Step) (v : String), IsPath gr.adj o v q2 →
            ∃ x : ℚ, s.dist v = some ((x : ℚ) : WithTop ℚ) := by
          intro q2
          induction q2 using List.reverseRecOn with
          | nil =>
            intro v hv
            have hov : o = v := hv
            subst hov
            exact ⟨0, invF.dist_origin⟩
          | append_singleton q2' st ih =>
            intro v hv
            rcases isPath_append_singleton.mp hv with ⟨hq2', hmem2, hto2⟩
            rcases ih st.«from» hq2' with ⟨xf, hxf⟩
            have hkf : (dijkstraKeys gr o).contains st.«from» = true :=
              hkeys _ (wf _ _ hmem2).1
            have hvf : s.visited st.«from» = true := by
              cases hv2 : s.visited st.«from»
              · exfalso
                have := selectMin_none_spec hsel st.«from» (by simpa using hkf)
                  hv2 _ hxf
                exact WithTop.coe_ne_top this
              · rfl
            rcases invF.relaxed st.«from» hvf st.edge hmem2 xf hxf with ⟨xv, hxv, _⟩
            rw [hto2] at hxv
            exact ⟨xv, hxv⟩
        rcases hfin q d hq with ⟨xd, hxd⟩
        have := invF.prev_some d xd hxd (fun h => hod2 h.symm)
        rw [hprevd] at this
        simp at this
      · rcases selectMin_some_spec hsel with ⟨_, _, du', hdu', hlt', _⟩
        obtain ⟨xd, rfl⟩ : ∃ xd : ℚ, du' = ((xd : ℚ) : WithTop ℚ) := by
          rcases WithTop.ne_top_iff_exists.mp (ne_top_of_lt hlt') with ⟨xd, h⟩
          exact ⟨xd, h.symm⟩
        have := invF.prev_some d xd hdu' (fun h => hod2 h.symm)
        rw [hprevd] at this
        simp at this

/-- Claim C1: for every graph produced by the graph builder whose edge
weights are all non-negative, and every origin and destination node in it,
a path returned by the Dijkstra solver is an origin-to-destination path in
the graph whose summed edge weight is at most the summed weight of every
other origin-to-destination path; when the solver reports no path the claim
holds vacuously. -/
theorem dijkstra_optimal_on_built_graphs
    (geoDist : GeoPoint → GeoPoint → ℚ) (nodes : List Node) (edges : List Edge)
    (cfg : Config) (objective : String) (events : List DisruptionEvent) (o d : String)
    (hnonneg : ∀ u e,
      e ∈ (buildGraph geoDist nodes edges cfg objective events).adj u → 0 ≤ e.weight)
    (ho : (buildGraph geoDist nodes edges cfg objective events).nodeIds.contains o =
      true)
    (hd : (buildGraph geoDist nodes edges cfg objective events).nodeIds.contains d =
      true) :
    ∀ p, dijkstra (buildGraph geoDist nodes edges cfg objective events) o d = some p →
      IsPath (buildGraph geoDist nodes edges cfg objective events).adj o d p ∧
      ∀ q, IsPath (buildGraph geoDist nodes edges cfg objective events).adj o d q →
        pathWeight p ≤ pathWeight q := by
  intro p hp
  have hnd : (buildGraph geoDist nodes edges cfg objective events).nodeIds.Nodup :=
    dedupKeys_nodup nodes
  have h := (dijkstra_correct hnd (buildGraph_wf geoDist nodes edges cfg objective
    events) hnonneg o d).1 p hp
  exact ⟨h.1, h.2.2⟩

/-- Witness for C1: on the concrete two-node road network the solver returns
the single-edge path, and the claim instance yields its optimality. -/
theorem dijkstra_optimal_on_built_graphs_witness :
    dijkstra (buildGraph testDist [testNodeA, testNodeB] [testEdgeAB] defaultConfig
        "cheap" []) "A" "B" =
      some [⟨"A", adjEntryOf testDist defaultConfig "cheap" [] testEdgeAB testNodeA
        testNodeB⟩] ∧
    (IsPath (buildGraph testDist [testNodeA, testNodeB] [testEdgeAB] defaultConfig
        "cheap" []).adj "A" "B"
      [⟨"A", adjEntryOf testDist defaultConfig "cheap" [] testEdgeAB testNodeA
        testNodeB⟩] ∧
     ∀ q, IsPath (buildGraph testDist [testNodeA, testNodeB] [testEdgeAB] defaultConfig
        "cheap" []).adj "A" "B" q →
       pathWeight [⟨"A", adjEntryOf testDist defaultConfig "cheap" [] testEdgeAB
         testNodeA testNodeB⟩] ≤ pathWeight q) := by
  have hdij : dijkstra (buildGraph testDist [testNodeA, testNodeB] [testEdgeAB]
      defaultConfig "cheap" []) "A" "B" =
      some [⟨"A", adjEntryOf testDist defaultConfig "cheap" [] testEdgeAB testNodeA
        testNodeB⟩] := by
    with_unfolding_all rfl
  have hnn : ∀ u e, e ∈ (buildGraph testDist [testNodeA, testNodeB] [testEdgeAB]
      defaultConfig "cheap" []).adj u → 0 ≤ e.weight := by
    intro u e he
    rw [mem_buildGraph_adj] at he
    rcases he with ⟨e0, he0, fn, tn, hfn, htn, _, _, hentry⟩
    have he0' : e0 = testEdgeAB := by simpa using he0
    subst he0'
    rw [show mkNodeMap [testNodeA, testNodeB] testEdgeAB.«from» = some testNodeA from
      (by with_unfolding_all rfl)] at hfn
    rw [show mkNodeMap [testNodeA, testNodeB] testEdgeAB.«to» = some testNodeB from
      (by with_unfolding_all rfl)] at htn
    injection hfn with hfn
    injection htn with htn
    subst hfn
    subst htn
    rw [hentry]
    rw [show (adjEntryOf testDist defaultConfig "cheap" [] testEdgeAB testNodeA
      testNodeB).weight = 2 from (by with_unfolding_all rfl)]
    norm_num
  exact ⟨hdij, dijkstra_optimal_on_built_graphs testDist [testNodeA, testNodeB]
    [testEdgeAB] defaultConfig "cheap" [] "A" "B" hnn (by with_unfolding_all rfl)
    (by with_unfolding_all rfl) _ hdij⟩

lemma computeWeight_cheap (stats : LegStats) (w : Weights) :
    computeWeight stats "cheap" w = stats.cost := by
  with_unfolding_all rfl

lemma computeLegStats_mode (geoDist : GeoPoint → GeoPoint → ℚ) (e : Edge)
    (fn tn : Node) (cfg : Config) (events : List DisruptionEvent) :
    (computeLegStats geoDist e fn tn cfg events).mode = normalizeMode e.mode := rfl

/-- With no disruption events the `cost` of a leg with no explicit distance
or cost override is non-negative whenever the distance function and the
per-km and tariff constants are. -/
lemma computeLegStats_cost_nonneg_no_events {geoDist : GeoPoint → GeoPoint → ℚ}
    (hgd : ∀ a b, 0 ≤ geoDist a b) (e : Edge) (fn tn : Node) (cfg : Config)
    (hcfg : ∀ m, 0 ≤ (cfg.transport m).costPerKm)
    (htar : 0 ≤ cfg.tariff.crossBorderCost)
    (hdist : e.distanceKm = none) (hcost : e.cost = none) :
    0 ≤ (computeLegStats geoDist e fn tn cfg []).cost := by
  unfold computeLegStats
  dsimp only
  rw [hdist, hcost]
  dsimp only [List.foldl]
  have hbase : 0 ≤ geoDist ⟨fn.lng, fn.lat⟩ ⟨tn.lng, tn.lat⟩ *
      (cfg.transport (normalizeMode e.mode)).costPerKm :=
    mul_nonneg (hgd _ _) (hcfg _)
  by_cases hcb : (strTruthy fn.region && strTruthy tn.region &&
      !(fn.region = tn.region)) = true
  · rw [if_pos hcb]
    exact add_nonneg hbase htar
  · rw [if_neg hcb]
    exact hbase

lemma upsertEdge_mem_or {edges : List Edge} {f t m : String} {e : Edge}
    (h : e ∈ upsertEdge edges f t m) :
    e ∈ edges ∨
      e = { «from» := f, «to» := t, mode := some (normalizeMode (some m)) } := by
  unfold upsertEdge at h
  dsimp only at h
  by_cases hc : edges.any (fun e2 => decide (e2.«from» = f ∧ e2.«to» = t ∧
      normalizeMode e2.mode = normalizeMode (some m))) = true
  · rw [if_pos (by simpa using hc)] at h
    exact Or.inl h
  · rw [if_neg (by simpa using hc)] at h
    rcases List.mem_append.mp h with h2 | h2
    · exact Or.inl h2
    · exact Or.inr (by simpa using h2)

lemma upsertEdge_superset {edges : List Edge} (f t m : String) {e : Edge}
    (h : e ∈ edges) : e ∈ upsertEdge edges f t m := by
  unfold upsertEdge
  dsimp only
  by_cases hc : edges.any (fun e2 => decide (e2.«from» = f ∧ e2.«to» = t ∧
      normalizeMode e2.mode = normalizeMode (some m))) = true
  · rw [if_pos (by simpa using hc)]
    exact h
  · rw [if_neg (by simpa using hc)]
    exact List.mem_append_left _ h

/-- Every edge present after one `ensureAccessForFacilityType` pass is either
an original edge or a road connector created by `upsertEdge` (whose optional
distance, time and cost fields are absent). -/
lemma ensureOne_edges_or (geoDist : GeoPoint → GeoPoint → ℚ) (tid : String)
    (index : String → List Node) (onode dnode : Node) (st : EnsureState)
    (ft : String) :
    ∀ e ∈ (ensureOneFacilityType geoDist tid index onode dnode st ft).edges,
      e ∈ st.edges ∨
        ∃ f t m, e = { «from» := f, «to» := t, mode := some m } := by
  intro e he
  unfold ensureOneFacilityType at he
  dsimp only at he
  obtain ⟨l2, _, _, hed2, _⟩ := selectFacilityId_spec geoDist tid
    ((selectFacilityId geoDist tid st index onode ft "origin").1) index dnode ft
    "destination"
  obtain ⟨l1, _, _, hed1, _⟩ := selectFacilityId_spec geoDist tid st index onode ft
    "origin"
  rw [hed2, hed1] at he
  have step : ∀ {X : List Edge} {f t m : String},
      (e ∈ X → e ∈ st.edges ∨
        ∃ f2 t2 m2, e = ({ «from» := f2, «to» := t2, mode := some m2 } : Edge)) →
      (e ∈ upsertEdge X f t m → e ∈ st.edges ∨
        ∃ f2 t2 m2, e = ({ «from» := f2, «to» := t2, mode := some m2 } : Edge)) := by
    intro X f t m hX hmem
    rcases upsertEdge_mem_or hmem with h | h
    · exact hX h
    · exact Or.inr ⟨f, t, normalizeMode (some m), h⟩
  repeat' split at he
  all_goals first
    | exact Or.inl he
    | exact step Or.inl he
    | exact step (step Or.inl) he
    | exact step (step (step Or.inl)) he
    | exact step (step (step (step Or.inl))) he

/-- `ensureAccessForFacilityType` never removes an edge. -/
lemma ensureOne_edges_superset (geoDist : GeoPoint → GeoPoint → ℚ) (tid : String)
    (index : String → List Node) (onode dnode : Node) (st : EnsureState)
    (ft : String) :
    ∀ e ∈ st.edges, e ∈ (ensureOneFacilityType geoDist tid index onode dnode st ft).edges := by
  intro e he
  unfold ensureOneFacilityType
  dsimp only
  obtain ⟨l2, _, _, hed2, _⟩ := selectFacilityId_spec geoDist tid
    ((selectFacilityId geoDist tid st index onode ft "origin").1) index dnode ft
    "destination"
  obtain ⟨l1, _, _, hed1, _⟩ := selectFacilityId_spec geoDist tid st index onode ft
    "origin"
  rw [hed2, hed1]
  repeat' split
  all_goals first
    | exact he
    | exact upsertEdge_superset _ _ _ he
    | exact upsertEdge_superset _ _ _ (upsertEdge_superset _ _ _ he)
    | exact upsertEdge_superset _ _ _ (upsertEdge_superset _ _ _
        (upsertEdge_superset _ _ _ he))
    | exact upsertEdge_superset _ _ _ (upsertEdge_superset _ _ _
        (upsertEdge_superset _ _ _ (upsertEdge_superset _ _ _ he)))

/-- Edge provenance through the whole facility-ensuring pass. -/
lemma ensureFacilities_edges_or (geoDist : GeoPoint → GeoPoint → ℚ) (tid : String)
    (nodes : List Node) (edges : List Edge) (onode dnode : Node)
    (ms : List String) :
    ∀ e ∈ (ensureFacilitiesForModes geoDist tid nodes edges onode dnode ms).edges,
      e ∈ edges ∨ ∃ f t m, e = { «from» := f, «to» := t, mode := some m } := by
  unfold ensureFacilitiesForModes
  dsimp only
  have aux : ∀ (types : List String) (st : EnsureState),
      ∀ e ∈ (types.foldl (ensureOneFacilityType geoDist tid (buildFacilityIndex nodes)
        onode dnode) st).edges,
      e ∈ st.edges ∨ ∃ f t m, e = ({ «from» := f, «to» := t, mode := some m } : Edge) := by
    intro types
    induction types with
    | nil => exact fun st e he => Or.inl he
    | cons ft rest ih =>
      intro st e he
      rw [List.foldl_cons] at he
      rcases ih _ e he with h | h
      · exact ensureOne_edges_or geoDist tid _ onode dnode st ft e h
      · exact Or.inr h
  exact fun e he => aux _ _ e he

/-- The facility-ensuring pass never removes an edge. -/
lemma ensureFacilities_edges_superset (geoDist : GeoPoint → GeoPoint → ℚ)
    (tid : String) (nodes : List Node) (edges : List Edge) (onode dnode : Node)
    (ms : List String) :
    ∀ e ∈ edges,
      e ∈ (ensureFacilitiesForModes geoDist tid nodes edges onode dnode ms).edges := by
  unfold ensureFacilitiesForModes
  dsimp only
  have aux : ∀ (types : List String) (st : EnsureState), ∀ e ∈ st.edges,
      e ∈ (types.foldl (ensureOneFacilityType geoDist tid (buildFacilityIndex nodes)
        onode dnode) st).edges := by
    intro types
    induction types with
    | nil => exact fun st e he => he
    | cons ft rest ih =>
      intro st e he
      rw [List.foldl_cons]
      exact ih _ e (ensureOne_edges_superset geoDist tid _ onode dnode st ft e he)
  exact fun e he => aux _ _ e he

/-- On the first `min_cost` attempt (road+sea) over the default network the
solver finds a non-empty Shanghai → Duisburg path whose legs all use road or
sea: the sea leg to Hamburg and the road leg onward witness reachability,
and every edge surviving the mode filter is a road or sea edge. -/
lemma c8_dijkstra_some (geoDist : GeoPoint → GeoPoint → ℚ)
    (hgd : ∀ a b, 0 ≤ geoDist a b) :
    ∃ path, dijkstra (attemptGraph geoDist defaultConfig "task-1" none none [] "cheap"
        nodeSH nodeDUI ["road", "sea"]) "CN_SHANGHAI" "EU_DUISBURG" = some path ∧
      path ≠ [] ∧
      ∀ st ∈ path, (legOfStep st).mode = "road" ∨ (legOfStep st).mode = "sea" := by
  obtain ⟨ens, hens⟩ : ∃ ens, attemptEnsured geoDist "task-1" none none nodeSH nodeDUI
      ["road", "sea"] = ens := ⟨_, rfl⟩
  have hGdef : attemptGraph geoDist defaultConfig "task-1" none none [] "cheap" nodeSH
      nodeDUI ["road", "sea"] = buildGraph geoDist ens.nodes
      (filterEdgesByConstraintsAndModes ens.nodes ens.edges ["road", "sea"])
      defaultConfig "cheap" [] := by
    rw [← hens]
    rfl
  have hens_nodes : ens.nodes = (attemptWorking none none).1 := by
    rw [← hens]
    with_unfolding_all rfl
  have hbase_sub : ∀ e ∈ (attemptWorking none none).2, e ∈ ens.edges := by
    intro e he
    rw [← hens]
    exact ensureFacilities_edges_superset geoDist "task-1" (attemptWorking none none).1
      (attemptWorking none none).2 nodeSH nodeDUI ["road", "sea"] e he
  have hfields : ∀ e ∈ ens.edges, e.distanceKm = none ∧ e.cost = none := by
    have hbase_fields : ∀ e2 ∈ (attemptWorking none none).2,
        e2.distanceKm = none ∧ e2.cost = none := by decide
    intro e he
    rw [← hens] at he
    rcases ensureFacilities_edges_or geoDist "task-1" (attemptWorking none none).1
      (attemptWorking none none).2 nodeSH nodeDUI ["road", "sea"] e he with
      h | ⟨f, t, m, rfl⟩
    · exact hbase_fields e h
    · exact ⟨rfl, rfl⟩
  have hnn : ∀ u entry, entry ∈ (buildGraph geoDist ens.nodes
      (filterEdgesByConstraintsAndModes ens.nodes ens.edges ["road", "sea"])
      defaultConfig "cheap" []).adj u → 0 ≤ entry.weight := by
    intro u entry hmem
    rw [mem_buildGraph_adj] at hmem
    rcases hmem with ⟨e, hec, fn, tn, hfn, htn, _, _, hentry⟩
    have hef := hfields e ((mem_filterEdges _ _ _ _).mp hec).1
    subst hentry
    rw [show (adjEntryOf geoDist defaultConfig "cheap" [] e fn tn).weight =
      computeWeight (computeLegStats geoDist e fn tn defaultConfig []) "cheap"
        defaultConfig.weights from rfl]
    rw [computeWeight_cheap]
    exact computeLegStats_cost_nonneg_no_events hgd e fn tn defaultConfig
      (by intro m; unfold defaultConfig; dsimp only; split_ifs <;> norm_num)
      (by norm_num [defaultConfig])
      hef.1 hef.2
  have hfnSH : mkNodeMap ens.nodes "CN_SHANGHAI" = some nodeSH := by
    rw [hens_nodes]
    with_unfolding_all rfl
  have hfnHAM : mkNodeMap ens.nodes "EU_HAMBURG" = some nodeHAM := by
    rw [hens_nodes]
    with_unfolding_all rfl
  have hfnDUI : mkNodeMap ens.nodes "EU_DUISBURG" = some nodeDUI := by
    rw [hens_nodes]
    with_unfolding_all rfl
  have hsea_mem : seaSHHAM ∈ filterEdgesByConstraintsAndModes ens.nodes ens.edges
      ["road", "sea"] := by
    rw [mem_filterEdges]
    refine ⟨hbase_sub seaSHHAM (by decide), nodeSH, nodeHAM, hfnSH, hfnHAM, ?_, ?_⟩
    · with_unfolding_all rfl
    · right; right; left
      exact ⟨by with_unfolding_all rfl, by with_unfolding_all rfl,
        by with_unfolding_all rfl⟩
  have hroad_mem : roadHAMDUI ∈ filterEdgesByConstraintsAndModes ens.nodes ens.edges
      ["road", "sea"] := by
    rw [mem_filterEdges]
    refine ⟨hbase_sub roadHAMDUI (by decide), nodeHAM, nodeDUI, hfnHAM, hfnDUI, ?_, ?_⟩
    · with_unfolding_all rfl
    · left
      with_unfolding_all rfl
  have hadj1 : adjEntryOf geoDist defaultConfig "cheap" [] seaSHHAM nodeSH nodeHAM ∈
      (buildGraph geoDist ens.nodes
        (filterEdgesByConstraintsAndModes ens.nodes ens.edges ["road", "sea"])
        defaultConfig "cheap" []).adj "CN_SHANGHAI" := by
    rw [mem_buildGraph_adj]
    exact ⟨seaSHHAM, hsea_mem, nodeSH, nodeHAM, hfnSH, hfnHAM, rfl, rfl, rfl⟩
  have hadj2 : adjEntryOf geoDist defaultConfig "cheap" [] roadHAMDUI nodeHAM nodeDUI ∈
      (buildGraph geoDist ens.nodes
        (filterEdgesByConstraintsAndModes ens.nodes ens.edges ["road", "sea"])
        defaultConfig "cheap" []).adj "EU_HAMBURG" := by
    rw [mem_buildGraph_adj]
    exact ⟨roadHAMDUI, hroad_mem, nodeHAM, nodeDUI, hfnHAM, hfnDUI, rfl, rfl, rfl⟩
  have hq : IsPath (buildGraph geoDist ens.nodes
      (filterEdgesByConstraintsAndModes ens.nodes ens.edges ["road", "sea"])
      defaultConfig "cheap" []).adj "CN_SHANGHAI" "EU_DUISBURG"
      [⟨"CN_SHANGHAI", adjEntryOf geoDist defaultConfig "cheap" [] seaSHHAM nodeSH
          nodeHAM⟩,
       ⟨"EU_HAMBURG", adjEntryOf geoDist defaultConfig "cheap" [] roadHAMDUI nodeHAM
          nodeDUI⟩] := by
    exact ⟨rfl, hadj1, rfl, hadj2, rfl⟩
  have hndG : (buildGraph geoDist ens.nodes
      (filterEdgesByConstraintsAndModes ens.nodes ens.edges ["road", "sea"])
      defaultConfig "cheap" []).nodeIds.Nodup := dedupKeys_nodup _
  rw [hGdef]
  cases hdij : dijkstra (buildGraph geoDist ens.nodes
      (filterEdgesByConstraintsAndModes ens.nodes ens.edges ["road", "sea"])
      defaultConfig "cheap" []) "CN_SHANGHAI" "EU_DUISBURG" with
  | none =>
    exact absurd hq ((dijkstra_correct hndG (buildGraph_wf _ _ _ _ _ _) hnn
      "CN_SHANGHAI" "EU_DUISBURG").2 hdij (by decide) _)
  | some path =>
    have hchar := (dijkstra_correct hndG (buildGraph_wf _ _ _ _ _ _) hnn
      "CN_SHANGHAI" "EU_DUISBURG").1 path hdij
    refine ⟨path, rfl, hchar.2.1, ?_⟩
    intro st hst
    have hadj := dijkstra_steps_mem_adj hdij st hst
    rw [mem_buildGraph_adj] at hadj
    rcases hadj with ⟨e, hec, fn, tn, _, _, _, _, hentry⟩
    have hmode : (legOfStep st).mode = normalizeMode e.mode := by
      rw [show (legOfStep st).mode = st.edge.mode from rfl, hentry]
      rfl
    rw [hmode]
    rcases ((mem_filterEdges _ _ _ _).mp hec).2 with ⟨_, _, _, _, hcontains, _⟩
    rw [show ((["road", "sea"] : List String).map (fun m => normalizeMode (some m))) =
      ["road", "sea"] from (by with_unfolding_all rfl)] at hcontains
    simpa using hcontains

/-- Claim C8: planning Shanghai → Duisburg on the built-in default network
with objective `min_cost` and no disruption events returns exactly one
result carrying a non-null solution, every leg of which uses only the road,
sea (or rail) modes, and whose `totalCost` — as the spec defines it —
equals the sum of the cost fields of its legs.  Stated for every
non-negative distance function, which the haversine distance is. -/
theorem default_network_shanghai_duisburg_min_cost
    (geoDist : GeoPoint → GeoPoint → ℚ) (hgd : ∀ a b, 0 ≤ geoDist a b) :
    ∃ sol : Solution,
      planScenario geoDist defaultConfig c8Request =
        [⟨"task-1", "min_cost", some sol⟩] ∧
      sol.legs ≠ [] ∧
      (∀ leg ∈ sol.legs, leg.mode = "road" ∨ leg.mode = "sea" ∨ leg.mode = "rail") ∧
      solutionTotalCost sol = (sol.legs.map (fun l => l.cost)).sum := by
  obtain ⟨path, hdij, hne, hmodes⟩ := c8_dijkstra_some geoDist hgd
  have hon : mkNodeMap (attemptWorking none none).1 "CN_SHANGHAI" = some nodeSH := by
    with_unfolding_all rfl
  have hdn : mkNodeMap (attemptWorking none none).1 "EU_DUISBURG" = some nodeDUI := by
    with_unfolding_all rfl
  have hlen : ¬ path.length = 0 := by
    intro h
    exact hne (List.length_eq_zero.mp h)
  obtain ⟨sol, hbody, hlegs⟩ : ∃ sol, planAttemptBody geoDist defaultConfig "task-1"
      "CN_SHANGHAI" "EU_DUISBURG" none none [] "cheap" ["road", "sea"] =
      some (some sol) ∧ sol.legs = path.map legOfStep := by
    rw [planAttemptBody_eq, hon, hdn]
    dsimp only
    rw [hdij]
    dsimp only
    rw [if_neg hlen]
    exact ⟨_, rfl, rfl⟩
  have hatt : planAttempts geoDist defaultConfig "task-1" "CN_SHANGHAI" "EU_DUISBURG"
      none none [] "cheap"
      [["road", "sea"], ["road", "sea", "rail"], ["road", "sea", "rail", "air"]] =
      some sol := by
    unfold planAttempts
    rw [hbody]
  have hplanOne : planOneTask geoDist defaultConfig c8Task none none [] =
      ⟨"task-1", "min_cost", some sol⟩ := by
    rw [show planOneTask geoDist defaultConfig c8Task none none [] =
      (⟨"task-1", "min_cost", planAttempts geoDist defaultConfig "task-1" "CN_SHANGHAI"
        "EU_DUISBURG" none none [] "cheap"
        [["road", "sea"], ["road", "sea", "rail"], ["road", "sea", "rail", "air"]]⟩ :
        TaskResult) from (by with_unfolding_all rfl)]
    rw [hatt]
  refine ⟨sol, ?_, ?_, ?_, rfl⟩
  · rw [show planScenario geoDist defaultConfig c8Request =
      [planOneTask geoDist defaultConfig c8Task none none []] from
      (by with_unfolding_all rfl), hplanOne]
  · rw [hlegs]
    intro h
    exact hne (List.map_eq_nil_iff.mp h)
  · rw [hlegs]
    intro leg hleg
    rcases List.mem_map.mp hleg with ⟨st, hst, rfl⟩
    rcases hmodes st hst with h | h
    · exact Or.inl h
    · exact Or.inr (Or.inl h)

/-- Witness for C8 at the constant unit distance function. -/
theorem default_network_shanghai_duisburg_min_cost_witness :
    (∀ a b, 0 ≤ testDist a b) ∧
    ∃ sol : Solution,
      planScenario testDist defaultConfig c8Request =
        [⟨"task-1", "min_cost", some sol⟩] ∧
      sol.legs ≠ [] ∧
      (∀ leg ∈ sol.legs, leg.mode = "road" ∨ leg.mode = "sea" ∨ leg.mode = "rail") ∧
      solutionTotalCost sol = (sol.legs.map (fun l => l.cost)).sum :=
  ⟨fun a b => by norm_num [testDist],
   default_network_shanghai_duisburg_min_cost testDist
     (fun a b => by norm_num [testDist])⟩

end LogiGlobe
